import Mathlib

/-!
Verification development for the SWEREF99 coordinate-search engine of the
`search-widget` repository.

The TypeScript sources `src/shared/utils.ts`, `src/shared/hooks.ts` and
`src/config/constants.ts` are embedded shallowly:

* strings are `List Char` (`Str`), JS `number` is `ℚ` (all values handled by
  the engine are finite doubles; the claims settled here do not depend on
  floating-point rounding),
* the regular expressions of the source are translated into explicit
  left-to-right scanners with the exact greedy semantics of the JS engine,
* fallible code returns `Option`/sum types, and the async search sequencer is
  modelled as an explicit interleaving of its synchronous segments.
-/

set_option maxRecDepth 40000

/-- Strings of the embedded program are lists of characters. -/
abbrev Str := List Char

/-- The JS `\s` character class (also used by `String.prototype.trim`):
tab, LF, VT, FF, CR, space, NBSP, and the Unicode space separators. -/
def isJsWs (c : Char) : Bool :=
  c.toNat == 32 || c.toNat == 9 || c.toNat == 10 || c.toNat == 11 ||
  c.toNat == 12 || c.toNat == 13 || c.toNat == 160 || c.toNat == 0x1680 ||
  (0x2000 ≤ c.toNat && c.toNat ≤ 0x200A) || c.toNat == 0x2028 ||
  c.toNat == 0x2029 || c.toNat == 0x202F || c.toNat == 0x205F ||
  c.toNat == 0x3000 || c.toNat == 0xFEFF

/-- Scanner for the global replacement of `HTML_TAG_REGEX = /<[^>]*>/g` by the
empty string.  In mode `false` (outside a match) a `<` that is followed by some
`>` starts a (greedy) match running to the first `>`, which mode `true` skips;
a `<` with no later `>` starts no match, and then no later position can start
one either, so the rest is kept verbatim. -/
def stripTagsGo : Bool → Str → Str
  | _, [] => []
  | true, c :: rest => if c = '>' then stripTagsGo false rest else stripTagsGo true rest
  | false, c :: rest =>
    if c = '<' then
      if '>' ∈ rest then stripTagsGo true rest else c :: rest
    else c :: stripTagsGo false rest

/-- Global replacement of `HTML_TAG_REGEX = /<[^>]*>/g` by the empty string. -/
def stripTags (l : Str) : Str := stripTagsGo false l

/-- Scanner for the global replacement of `WHITESPACE_REGEX = /\s+/g` by a
single space; `prevWs` records whether the previous character belonged to a
whitespace run that has already produced its `' '`. -/
def collapseWsGo : Bool → Str → Str
  | _, [] => []
  | prevWs, c :: rest =>
    if isJsWs c then
      if prevWs then collapseWsGo true rest else ' ' :: collapseWsGo true rest
    else c :: collapseWsGo false rest

/-- Global replacement of `WHITESPACE_REGEX = /\s+/g` by a single space:
every maximal run of whitespace becomes one `' '`. -/
def collapseWs (l : Str) : Str := collapseWsGo false l

/-- JS `String.prototype.trim`: drop whitespace from both ends. -/
def trimWs (l : Str) : Str :=
  ((l.dropWhile isJsWs).reverse.dropWhile isJsWs).reverse

/-- Character filter of `sanitizeCoordinateInputInternal`:
`(code >= 32 && code <= 126) || (code >= 160 && code <= 255)`. -/
def keepCoordChar (c : Char) : Bool :=
  (32 ≤ c.toNat && c.toNat ≤ 126) || (160 ≤ c.toNat && c.toNat ≤ 255)

/-- `COORDINATE_INPUT_MAX_LENGTH` from `config/constants.ts`. -/
def COORDINATE_INPUT_MAX_LENGTH : ℕ := 200

/-- `sanitizeCoordinateInputInternal` from `utils.ts`: strip HTML tags,
keep printable Latin-1 characters, collapse whitespace runs, trim. -/
def sanitizeCoordinateInputInternal (l : Str) : Str :=
  trimWs (collapseWs ((stripTags l).filter keepCoordChar))

/-- `sanitizeCoordinateInput` from `utils.ts`: the internal sanitizer followed
by truncation to `COORDINATE_INPUT_MAX_LENGTH` characters. -/
def sanitizeCoordinateInput (l : Str) : Str :=
  (sanitizeCoordinateInputInternal l).take COORDINATE_INPUT_MAX_LENGTH

/-- Character filter of `sanitizeSearchTerm`: `code >= 32 && code !== 127`. -/
def keepSearchChar (c : Char) : Bool :=
  32 ≤ c.toNat && c.toNat != 127

/-- The `trimmed` local of `sanitizeSearchTerm`: filter characters, collapse
whitespace runs, delete `<`/`>`, trim. -/
def sanitizeSearchTermCore (l : Str) : Str :=
  trimWs ((collapseWs (l.filter keepSearchChar)).filter
    (fun c => !(c = '<' || c = '>')))

/-- `sanitizeSearchTerm` from `utils.ts`: the core sanitizer followed by
truncation to 256 characters (empty input short-circuits). -/
def sanitizeSearchTerm (l : Str) : Str :=
  if l = [] then [] else (sanitizeSearchTermCore l).take 256

example :
    sanitizeCoordinateInput " 500000,6500000 ".toList = "500000,6500000".toList := by
  decide

example :
    sanitizeCoordinateInput "<b>12</b>  34".toList = "12 34".toList := by
  decide

example :
    sanitizeSearchTerm "a < > b".toList = "a   b".toList := by
  decide

/-! ## Constants and the projection table (`src/config/constants.ts`) -/

/-- `COORDINATE_WARNING_BUFFER_METERS`. -/
def COORDINATE_WARNING_BUFFER_METERS : ℚ := 5000

/-- `PRECISION_LIMITER` (`1e-3`; written with `mkRat` so that the kernel can
evaluate it). -/
def PRECISION_LIMITER : ℚ := mkRat 1 1000

/-- `MIN_EASTING`. -/
def MIN_EASTING : ℚ := 30000

/-- `MAX_EASTING`. -/
def MAX_EASTING : ℚ := 800000

/-- `MIN_NORTHING`. -/
def MIN_NORTHING : ℚ := 5900000

/-- `MAX_NORTHING`. -/
def MAX_NORTHING : ℚ := 7800000

/-- `TM_EASTING_MIN`. -/
def TM_EASTING_MIN : ℚ := 300000

/-- `TM_EASTING_MAX`. -/
def TM_EASTING_MAX : ℚ := 700000

/-- `ZONE_EASTING_MIN`. -/
def ZONE_EASTING_MIN : ℚ := 50000

/-- `ZONE_EASTING_MAX`. -/
def ZONE_EASTING_MAX : ℚ := 250000

/-- `GLOBAL_EASTING_MIN`. -/
def GLOBAL_EASTING_MIN : ℚ := 30000

/-- `GLOBAL_EASTING_MAX`. -/
def GLOBAL_EASTING_MAX : ℚ := 800000

/-- `GLOBAL_NORTHING_MIN`. -/
def GLOBAL_NORTHING_MIN : ℚ := 5900000

/-- `GLOBAL_NORTHING_MAX`. -/
def GLOBAL_NORTHING_MAX : ℚ := 7800000

/-- `Sweref99Bounds` from `config/types.ts`. -/
structure Sweref99Bounds where
  eMin : ℚ
  eMax : ℚ
  nMin : ℚ
  nMax : ℚ
deriving DecidableEq, Repr

/-- The `type` discriminator (`"tm" | "zone"`) of a projection. -/
inductive ProjectionKind
  | tm
  | zone
deriving DecidableEq, Repr

/-- A SWEREF99 projection record (`Sweref99Projection` in `config/types.ts`;
the zone-only field `zoneId` is `none` for the TM projection). -/
structure Sweref99Projection where
  id : String
  epsg : ℚ
  code : String
  name : String
  shortName : String
  kind : ProjectionKind
  zoneId : Option String
  centralMeridian : ℚ
  scaleFactor : ℚ
  falseEasting : ℚ
  falseNorthing : ℚ
  bounds : Sweref99Bounds
deriving DecidableEq, Repr

/-- `ZoneSpec` from `config/types.ts`. -/
structure ZoneSpec where
  zoneId : String
  name : String
  epsg : ℚ
  centralMeridian : ℚ
deriving DecidableEq, Repr

/-- `ZONE_SPECS` from `config/constants.ts` (decimal central meridians such as
`13.5` are written `mkRat 135 10` so that the kernel can evaluate them). -/
def ZONE_SPECS : List ZoneSpec :=
  [⟨"12 00", "SWEREF 99 12 00", 3007, 12⟩,
   ⟨"13 30", "SWEREF 99 13 30", 3008, mkRat 135 10⟩,
   ⟨"15 00", "SWEREF 99 15 00", 3009, 15⟩,
   ⟨"16 30", "SWEREF 99 16 30", 3010, mkRat 165 10⟩,
   ⟨"18 00", "SWEREF 99 18 00", 3011, 18⟩,
   ⟨"14 15", "SWEREF 99 14 15", 3012, mkRat 1425 100⟩,
   ⟨"15 45", "SWEREF 99 15 45", 3013, mkRat 1575 100⟩,
   ⟨"17 15", "SWEREF 99 17 15", 3014, mkRat 1725 100⟩,
   ⟨"18 45", "SWEREF 99 18 45", 3015, mkRat 1875 100⟩,
   ⟨"20 15", "SWEREF 99 20 15", 3016, mkRat 2025 100⟩,
   ⟨"21 45", "SWEREF 99 21 45", 3017, mkRat 2175 100⟩,
   ⟨"23 15", "SWEREF 99 23 15", 3018, mkRat 2325 100⟩]

/-- `ZONE_BOUNDS`: the bounds envelope shared by every zone projection. -/
def ZONE_BOUNDS : Sweref99Bounds :=
  ⟨50000, 250000, 6100000, 7700000⟩

/-- `buildZoneProjection` from `config/constants.ts`; the id is
`sweref99-` followed by the zone id with whitespace removed, lower-cased. -/
def buildZoneProjection (spec : ZoneSpec) : Sweref99Projection :=
  { id := "sweref99-" ++
      String.mk (((spec.zoneId.toList.filter (fun c => !isJsWs c)).map Char.toLower))
    epsg := spec.epsg
    code := "EPSG:" ++ toString spec.epsg.num
    name := spec.name
    shortName := spec.name
    kind := .zone
    zoneId := some spec.zoneId
    centralMeridian := spec.centralMeridian
    scaleFactor := 1
    falseEasting := 150000
    falseNorthing := 0
    bounds := ZONE_BOUNDS }

/-- `SWEREF99_TM` from `config/constants.ts`. -/
def SWEREF99_TM : Sweref99Projection :=
  { id := "sweref99-tm"
    epsg := 3006
    code := "EPSG:3006"
    name := "SWEREF 99 TM"
    shortName := "SWEREF 99 TM"
    kind := .tm
    zoneId := none
    centralMeridian := 15
    scaleFactor := mkRat 9996 10000
    falseEasting := 500000
    falseNorthing := 0
    bounds := ⟨300000, 700000, 6100000, 7700000⟩ }

/-- `SWEREF99_ZONES`. -/
def SWEREF99_ZONES : List Sweref99Projection :=
  ZONE_SPECS.map buildZoneProjection

/-- `SWEREF99_PROJECTIONS`. -/
def SWEREF99_PROJECTIONS : List Sweref99Projection :=
  SWEREF99_TM :: SWEREF99_ZONES

/-! ## Numeric normalization (`normalizeNumericString`, `parseNumeric`) -/

/-- Membership in the character class `[,.-]`. -/
def isSepDash (c : Char) : Bool := c = ',' || c = '.' || c = '-'

/-- Membership in the character class `[,.]`. -/
def isSepDot (c : Char) : Bool := c = ',' || c = '.'

/-- Test of `/[,.-]{2,}/`: two adjacent characters from `[,.-]`. -/
def hasSepRun2 : Str → Bool
  | [] => false
  | [_] => false
  | a :: b :: rest => (isSepDash a && isSepDash b) || hasSepRun2 (b :: rest)

/-- Test of `/^[,.]+|[,.-]+$/`: a leading `,`/`.` or a trailing `,`/`.`/`-`. -/
def hasBadEdgeSep (l : Str) : Bool :=
  (match l.head? with
   | some c => isSepDot c
   | none => false) ||
  (match l.getLast? with
   | some c => isSepDash c
   | none => false)

/-- `buildDecimal` from `normalizeNumericString`: strip `[,.-]` from both
parts and join them with a `.` when the decimal part is non-empty. -/
def buildDecimal (intPart decPart : Str) : Str :=
  let sInt := intPart.filter (fun c => !isSepDash c)
  let sDec := decPart.filter (fun c => !isSepDash c)
  if sInt = [] ∧ sDec = [] then []
  else if sDec = [] then sInt
  else sInt ++ '.' :: sDec

/-- JS `String.prototype.split(/\s+/)` followed by `.filter(Boolean)`. -/
def splitWsTokens (l : Str) : List Str :=
  (l.splitOnP isJsWs).filter (fun t => t ≠ [])

/-- The `hasThousandSpaces` test of `normalizeNumericString`: more than one
space-separated group, a first group of at most 3 characters and every later
group of exactly 3. -/
def hasThousandSpaces (groups : List Str) : Bool :=
  match groups with
  | g0 :: g1 :: rest => g0.length ≤ 3 && ((g1 :: rest).all fun g => g.length = 3)
  | _ => false

/-- JS `String.prototype.lastIndexOf` for a single character (`-1` if absent). -/
def jsLastIndexOf (l : Str) (c : Char) : Int :=
  match l.reverse.indexOf? c with
  | some i => ((l.length - 1 - i : ℕ) : Int)
  | none => -1

/-- JS `String.prototype.slice(0, e)` (non-negative `e` is a plain `take`). -/
def jsSliceTo (l : Str) (e : Int) : Str :=
  l.take (if e < 0 then (l.length + e).toNat else e.toNat)

/-- JS `String.prototype.slice(s)` (non-negative `s` is a plain `drop`). -/
def jsSliceFrom (l : Str) (s : Int) : Str :=
  l.drop (if s < 0 then ((l.length : Int) + s).toNat else s.toNat)

/-- The first two steps of `normalizeNumericString`: NBSP to space, then
strip every character outside `[0-9\s,.-]` (the local `cleaned` before the
early rejections). -/
def cleanNumericRaw (raw : Str) : Str :=
  (raw.map (fun c => if c.toNat = 160 then ' ' else c)).filter
    (fun c => c.isDigit || isJsWs c || c = ',' || c = '.' || c = '-')

/-- The recorded sign of `normalizeNumericString` (`"-"` exactly when the
cleaned string starts with `-`; a leading `+` cannot survive the character
filter). -/
def numericSign (cleaned0 : Str) : Str :=
  if cleaned0.head? = some '-' then ['-'] else []

/-- The sign-stripping steps of `normalizeNumericString`: drop one leading
`-`/`+`, then remove every remaining `+`/`-`. -/
def numericDropSigns (cleaned0 : Str) : Str :=
  (if cleaned0.head? = some '-' then cleaned0.tail
   else if cleaned0.head? = some '+' then cleaned0.tail
   else cleaned0).filter (fun c => !(c = '+' || c = '-'))

/-- The space-grouping step of `normalizeNumericString`: when the space
groups look like grouped thousands, remove all whitespace. -/
def numericUngroup (cleaned2 : Str) : Str :=
  if hasThousandSpaces (splitWsTokens cleaned2) then
    cleaned2.filter (fun c => !isJsWs c)
  else cleaned2

/-- The separator-resolution tail of `normalizeNumericString`, acting on the
recorded sign and the fully cleaned string: zero separators keeps the string,
more than two rejects, exactly one is the decimal point, two alike are both
grouping, and for one `.` and one `,` the later one is the decimal point. -/
def resolveSeparators (sign cleaned : Str) : Str :=
  if cleaned.count '.' + cleaned.count ',' = 0 then sign ++ cleaned
  else if 2 < cleaned.count '.' + cleaned.count ',' then []
  else if cleaned.count '.' + cleaned.count ',' = 1 then
    sign ++ buildDecimal ((cleaned.splitOnP isSepDot).getD 0 [])
      ((cleaned.splitOnP isSepDot).getD 1 [])
  else if 1 < cleaned.count '.' then sign ++ cleaned.filter (fun c => !(c = '.'))
  else if 1 < cleaned.count ',' then sign ++ cleaned.filter (fun c => !(c = ','))
  else
    sign ++ buildDecimal
      ((jsSliceTo cleaned (max (jsLastIndexOf cleaned ',') (jsLastIndexOf cleaned '.'))).filter
        (fun c => !isSepDot c))
      (jsSliceFrom cleaned (max (jsLastIndexOf cleaned ',') (jsLastIndexOf cleaned '.') + 1))

/-- `normalizeNumericString` from `utils.ts`: clean the raw string, reject
separator runs and bad edge separators, record and strip the sign, collapse
space-grouped thousands, then resolve `.` and `,` by their counts. -/
def normalizeNumericString (raw : Str) : Str :=
  if cleanNumericRaw raw = [] || hasSepRun2 (cleanNumericRaw raw) ||
      hasBadEdgeSep (if (cleanNumericRaw raw).head? = some '-' then
        (cleanNumericRaw raw).tail else cleanNumericRaw raw) then
    []
  else
    resolveSeparators (numericSign (cleanNumericRaw raw))
      (numericUngroup (numericDropSigns (cleanNumericRaw raw)))

/-- Digit list to a natural number. -/
def digitsToNat (l : Str) : ℕ :=
  l.foldl (fun acc c => 10 * acc + (c.toNat - 48)) 0

/-- JS `Number.parseFloat` restricted to the output alphabet of
`normalizeNumericString` (digits, whitespace, `.`, `,`, a leading sign; no
exponent or `Infinity` forms can occur there): skip leading whitespace, read
an optional sign and the longest `digits[.digits]` prefix; `none` is `NaN`. -/
def jsParseFloat (l : Str) : Option ℚ :=
  let l1 := l.dropWhile isJsWs
  let signAndRest : Bool × Str :=
    match l1 with
    | '-' :: r => (true, r)
    | '+' :: r => (false, r)
    | _ => (false, l1)
  let d1 := signAndRest.2.takeWhile Char.isDigit
  let r1 := signAndRest.2.drop d1.length
  let d2 : Str :=
    match r1 with
    | '.' :: r => r.takeWhile Char.isDigit
    | _ => []
  if d1 = [] ∧ d2 = [] then none
  else
    let mag : ℤ := Int.ofNat (digitsToNat d1 * 10 ^ d2.length + digitsToNat d2)
    some (mkRat (if signAndRest.1 then -mag else mag) (10 ^ d2.length))

/-- `parseNumeric` from `utils.ts`: an 18-raw-digit overflow guard, the
normalizer, a 15-digit precision guard, `parseFloat`, a `1e8` magnitude
guard, and flushing of magnitudes below `PRECISION_LIMITER` to `0`. -/
def parseNumeric (raw : Str) : Option ℚ :=
  if 18 < (raw.filter Char.isDigit).length then none
  else
    let normalized := normalizeNumericString raw
    if normalized = [] then none
    else if 15 < (normalized.filter Char.isDigit).length then none
    else
      match jsParseFloat normalized with
      | none => none
      | some v =>
        if 100000000 < |v| then none
        else if |v| < PRECISION_LIMITER then some 0 else some v

example : normalizeNumericString "1.234,567".toList = "1234.567".toList := by decide
example : normalizeNumericString "1.234.567".toList = "1234567".toList := by decide
example : normalizeNumericString "123 456".toList = "123456".toList := by decide
example : normalizeNumericString "1.2.3.4".toList = "".toList := by decide
example : parseNumeric "125452 ".toList = some 125452 := by decide
example : parseNumeric "13.5".toList = some (mkRat 27 2) := by decide
example : parseNumeric "-0.0005".toList = some 0 := by decide
example : parseNumeric "900000000".toList = none := by decide

/-! ## Number extraction and the coordinate parser (`utils.ts`) -/

/-- The trailing character class `[\d\s.,]` of `NUMBER_CAPTURE_REGEX`. -/
def isNumTail (c : Char) : Bool :=
  c.isDigit || isJsWs c || c = '.' || c = ','

/-- Scanner state for `NUMBER_CAPTURE_REGEX = /[-+]?\d[\d\s.,]*/g`. -/
inductive ExtractState
  | out
  | sawSign (s : Char)
  | num (acc : Str)

/-- All matches of `NUMBER_CAPTURE_REGEX = /[-+]?\d[\d\s.,]*/g`, scanning left
to right: a match starts at a digit, or at a `+`/`-` directly followed by a
digit, and greedily extends over `[\d\s.,]`; `acc` holds the current match
reversed. -/
def extractNumbersGo : ExtractState → Str → List Str
  | .out, [] => []
  | .sawSign _, [] => []
  | .num acc, [] => [acc.reverse]
  | .out, c :: rest =>
    if c.isDigit then extractNumbersGo (.num [c]) rest
    else if c = '-' || c = '+' then extractNumbersGo (.sawSign c) rest
    else extractNumbersGo .out rest
  | .sawSign s, c :: rest =>
    if c.isDigit then extractNumbersGo (.num [c, s]) rest
    else if c = '-' || c = '+' then extractNumbersGo (.sawSign c) rest
    else extractNumbersGo .out rest
  | .num acc, c :: rest =>
    if isNumTail c then extractNumbersGo (.num (c :: acc)) rest
    else if c = '-' || c = '+' then acc.reverse :: extractNumbersGo (.sawSign c) rest
    else acc.reverse :: extractNumbersGo .out rest

/-- `extractNumbers` from `utils.ts`: `input.match(NUMBER_CAPTURE_REGEX) ?? []`. -/
def extractNumbers (l : Str) : List Str :=
  extractNumbersGo .out l

/-- The label class `[ENen]` of `LABELED_VALUE_REGEX`. -/
def isLabelChar (c : Char) : Bool :=
  c = 'E' || c = 'N' || c = 'e' || c = 'n'

/-- Attempt to complete a match of `LABELED_VALUE_REGEX` directly after its
label character: `\s*[:=]?\s*` and then the capture `[-+]?\d[\d\s.,]*`.
Returns the capture together with the number of characters consumed after the
label.  The character classes of `\s*`, `[:=]?` and the capture head are
disjoint, so the greedy interpretation needs no backtracking. -/
def tryLabelValue (rest : Str) : Option (Str × ℕ) :=
  let ws1 := rest.takeWhile isJsWs
  let r1 := rest.drop ws1.length
  let colonLen := match r1 with
    | c :: _ => if c = ':' || c = '=' then 1 else 0
    | [] => 0
  let r2 := r1.drop colonLen
  let ws2 := r2.takeWhile isJsWs
  let r3 := r2.drop ws2.length
  let signLen := match r3 with
    | c :: d :: _ => if (c = '-' || c = '+') && d.isDigit then 1 else 0
    | _ => 0
  let signPart := r3.take signLen
  let r4 := r3.drop signLen
  match r4 with
  | c :: r5 =>
    if c.isDigit then
      let tail := r5.takeWhile isNumTail
      some (signPart ++ c :: tail,
        ws1.length + colonLen + ws2.length + signLen + 1 + tail.length)
    else none
  | [] => none

/-- All matches of `LABELED_VALUE_REGEX` as `(label, capture)` pairs, scanning
left to right; a failed attempt advances by one character (the behaviour of a
global JS regex), a successful match continues after its end (`skip` counts
the remaining characters of the current match). -/
def labeledMatchesGo : ℕ → Str → List (Char × Str)
  | _, [] => []
  | 0, c :: rest =>
    if isLabelChar c then
      match tryLabelValue rest with
      | some (capture, consumed) => (c, capture) :: labeledMatchesGo consumed rest
      | none => labeledMatchesGo 0 rest
    else labeledMatchesGo 0 rest
  | k + 1, _ :: rest => labeledMatchesGo k rest

/-- `input.matchAll(LABELED_VALUE_REGEX)` as `(label, capture)` pairs. -/
def labeledMatches (l : Str) : List (Char × Str) :=
  labeledMatchesGo 0 l

/-- `parseLabeled` from `utils.ts`: fold over the labelled matches; a value
that fails `parseNumeric` is skipped, later occurrences of a label win. -/
def parseLabeled (l : Str) : Option ℚ × Option ℚ :=
  (labeledMatches l).foldl
    (fun acc m =>
      match parseNumeric m.2 with
      | none => acc
      | some v =>
        if m.1.toUpper = 'E' then (some v, acc.2)
        else if m.1.toUpper = 'N' then (acc.1, some v) else acc)
    (none, none)

/-- `CoordinateInputFormat` from `config/enums.ts`. -/
inductive CoordinateInputFormat
  | labeled
  | commaSeparated
  | spaceSeparated
  | unknown
deriving DecidableEq, Repr

/-- Test of `/[ENen]\s*[:=]/`. -/
def hasLabelMark : Str → Bool
  | [] => false
  | c :: rest =>
    (isLabelChar c &&
      (match rest.dropWhile isJsWs with
       | d :: _ => d = ':' || d = '='
       | [] => false)) ||
    hasLabelMark rest

/-- Test of `/\d\s*,\s*\d/`. -/
def hasDigitCommaDigit : Str → Bool
  | [] => false
  | c :: rest =>
    (c.isDigit &&
      (match rest.dropWhile isJsWs with
       | ',' :: r2 =>
         (match r2.dropWhile isJsWs with
          | d :: _ => d.isDigit
          | [] => false)
       | _ => false)) ||
    hasDigitCommaDigit rest

/-- Test of `/\d\s+\d/`. -/
def hasDigitSpaceDigit : Str → Bool
  | [] => false
  | c :: rest =>
    (c.isDigit &&
      (match rest with
       | w :: r2 =>
         isJsWs w &&
           (match r2.dropWhile isJsWs with
            | d :: _ => d.isDigit
            | [] => false)
       | [] => false)) ||
    hasDigitSpaceDigit rest

/-- `detectInputFormat` from `utils.ts`. -/
def detectInputFormat (value : Str) : CoordinateInputFormat :=
  if hasLabelMark value then .labeled
  else if hasDigitCommaDigit value then .commaSeparated
  else if hasDigitSpaceDigit value then .spaceSeparated
  else .unknown

/-- `isLikelyWgs84` from `utils.ts`. -/
def isLikelyWgs84 (first second : ℚ) : Bool :=
  (|first| ≤ 90 && |second| ≤ 180) || (|first| ≤ 90 && |second| ≤ 90)

/-- The result of `detectAxisOrder`. -/
structure AxisOrder where
  easting : ℚ
  northing : ℚ
  warning : Option String
deriving DecidableEq, Repr

/-- The `firstIsEasting`/`secondIsEasting` test of `detectAxisOrder`. -/
def isEastingRange (v : ℚ) : Bool :=
  MIN_EASTING ≤ v && v ≤ MAX_EASTING

/-- The `firstIsNorthing`/`secondIsNorthing` test of `detectAxisOrder`. -/
def isNorthingRange (v : ℚ) : Bool :=
  MIN_NORTHING ≤ v && v ≤ MAX_NORTHING

/-- `detectAxisOrder` from `utils.ts`: reject WGS84-looking pairs first, then
resolve which value is the easting; the two trailing branches attach
`coordinateWarningAmbiguousOrder` only when the alternate reading is also
range-valid. -/
def detectAxisOrder (first second : ℚ) : Option AxisOrder :=
  if isLikelyWgs84 first second then none
  else if isEastingRange first && !isNorthingRange first &&
      isNorthingRange second && !isEastingRange second then
    some ⟨first, second, none⟩
  else if isNorthingRange first && !isEastingRange first &&
      isEastingRange second && !isNorthingRange second then
    some ⟨second, first, none⟩
  else if isEastingRange first && !isEastingRange second && !isNorthingRange second then
    some ⟨first, second, none⟩
  else if isEastingRange second && !isEastingRange first && !isNorthingRange first then
    some ⟨second, first, none⟩
  else if isEastingRange first && isNorthingRange second then
    some ⟨first, second,
      if isEastingRange second then some "coordinateWarningAmbiguousOrder" else none⟩
  else if isNorthingRange first && isEastingRange second then
    some ⟨second, first,
      if isEastingRange first then some "coordinateWarningAmbiguousOrder" else none⟩
  else none

/-- `isInRange` from `utils.ts`. -/
def isInRange (value min max : ℚ) : Bool :=
  min ≤ value && value ≤ max

/-- `isCoordinateInRange` from `utils.ts`. -/
def isCoordinateInRange (easting northing : ℚ) : Bool :=
  isInRange easting MIN_EASTING MAX_EASTING &&
  isInRange northing MIN_NORTHING MAX_NORTHING

/-- `CoordinateParseResult` from `config/types.ts`: either a success carrying
the resolved pair, the detected format, the sanitized text and an optional
warning, or a failure carrying an error key. -/
inductive CoordinateParseResult
  | ok (easting northing : ℚ) (format : CoordinateInputFormat)
      (sanitized : Option Str) (warning : Option String)
  | err (error : String)
deriving DecidableEq, Repr

/-- `buildCoordinateResult` from `utils.ts`. -/
def buildCoordinateResult (easting northing : ℚ) (format : CoordinateInputFormat)
    (sanitized : Option Str) (warning : Option String) : CoordinateParseResult :=
  if isLikelyWgs84 easting northing then .err "coordinateErrorNotSweref"
  else if !isCoordinateInRange easting northing then .err "coordinateErrorOutOfRange"
  else .ok easting northing format sanitized warning

/-- The character class `[,;]` stripped from fallback tokens. -/
def isCommaSemi (c : Char) : Bool := c = ',' || c = ';'

/-- `token.replace(/^[,;]+|[,;]+$/g, "")`: strip leading and trailing runs of
commas and semicolons. -/
def stripEdgeCommaSemi (t : Str) : Str :=
  ((t.dropWhile isCommaSemi).reverse.dropWhile isCommaSemi).reverse

/-- The labelled branch of `parseCoordinateString`: `some` result only when
both an `E` and an `N` value parsed. -/
def parseLabeledBranch (sanitized : Str) : Option CoordinateParseResult :=
  match parseLabeled sanitized with
  | (some e, some n) =>
    some (buildCoordinateResult e n .labeled (some sanitized) none)
  | _ => none

/-- The `numbers` local of `parseCoordinateString`: the regex captures, or --
when they yield fewer than two -- the whitespace-split fallback tokens with
their edge commas/semicolons stripped. -/
def parseNumberTokens (sanitized : Str) : List Str :=
  if (extractNumbers sanitized).length < 2 then
    if 2 ≤ (((splitWsTokens sanitized).map stripEdgeCommaSemi).filter
        (fun t => t ≠ [])).length then
      (((splitWsTokens sanitized).map stripEdgeCommaSemi).filter
        (fun t => t ≠ [])).take 2
    else extractNumbers sanitized
  else extractNumbers sanitized

/-- The format passed to `buildCoordinateResult` on the numeric path: an
`unknown` detection falls back on the presence of a comma. -/
def resolveUnknownFormat (format : CoordinateInputFormat) (sanitized : Str) :
    CoordinateInputFormat :=
  if format = .unknown then
    (if ',' ∈ sanitized then .commaSeparated else .spaceSeparated)
  else format

/-- The numeric (non-labelled) tail of `parseCoordinateString`. -/
def parseNumbersBranch (sanitized : Str) (format : CoordinateInputFormat) :
    CoordinateParseResult :=
  if (parseNumberTokens sanitized).length < 2 then .err "coordinateErrorParse"
  else
    match ((parseNumberTokens sanitized).take 2).map parseNumeric with
    | some first :: some second :: _ =>
      match detectAxisOrder first second with
      | none => .err "coordinateErrorParse"
      | some ao =>
        buildCoordinateResult ao.easting ao.northing
          (resolveUnknownFormat format sanitized) (some sanitized) ao.warning
    | _ => .err "coordinateErrorParse"

/-- `parseCoordinateString` from `utils.ts`: empty and over-length guards on
the sanitized input, the labelled branch when the format detector saw a
label, then the numeric branch. -/
def parseCoordinateString (input : Str) : CoordinateParseResult :=
  if input = [] then .err "coordinateErrorEmpty"
  else if sanitizeCoordinateInputInternal input = [] then .err "coordinateErrorEmpty"
  else if COORDINATE_INPUT_MAX_LENGTH < (sanitizeCoordinateInputInternal input).length then
    .err "coordinateErrorTooLong"
  else
    match (if detectInputFormat (sanitizeCoordinateInputInternal input) = .labeled then
        parseLabeledBranch (sanitizeCoordinateInputInternal input)
      else none) with
    | some r => r
    | none =>
      parseNumbersBranch (sanitizeCoordinateInputInternal input)
        (detectInputFormat (sanitizeCoordinateInputInternal input))

example :
    parseCoordinateString "500000,6500000".toList = .err "coordinateErrorParse" := by
  decide

example :
    parseCoordinateString "13.5,60.5".toList = .err "coordinateErrorParse" := by
  decide

example :
    parseCoordinateString "13.5 60.5".toList = .err "coordinateErrorParse" := by
  decide

example :
    parseCoordinateString "E=125452 N=6178897".toList =
      .ok 125452 6178897 .labeled (some "E=125452 N=6178897".toList) none := by
  decide

example :
    parseCoordinateString "125452 6178897".toList =
      .ok 125452 6178897 .spaceSeparated (some "125452 6178897".toList) none := by
  decide

/-! ## Projection detection (`utils.ts`) -/

/-- Exact rational subtraction, written with `mkRat` on numerators and
denominators so that the kernel can evaluate it; `qSub_eq` shows that it is
ordinary subtraction `a - b`. -/
def qSub (a b : ℚ) : ℚ :=
  mkRat (a.num * b.den - b.num * a.den) (a.den * b.den)

theorem qSub_eq (a b : ℚ) : qSub a b = a - b := by
  have ha : ((a.den : ℕ) : ℚ) ≠ 0 := Nat.cast_ne_zero.mpr a.den_nz
  have hb : ((b.den : ℕ) : ℚ) ≠ 0 := Nat.cast_ne_zero.mpr b.den_nz
  have hnum_a : ((a.num : ℤ) : ℚ) = a * ((a.den : ℕ) : ℚ) :=
    (div_eq_iff ha).mp (Rat.num_div_den a)
  have hnum_b : ((b.num : ℤ) : ℚ) = b * ((b.den : ℕ) : ℚ) :=
    (div_eq_iff hb).mp (Rat.num_div_den b)
  rw [qSub, Rat.mkRat_eq_div]
  rw [div_eq_iff (by push_cast; exact mul_ne_zero ha hb)]
  push_cast
  push_cast at hnum_a hnum_b
  rw [hnum_a, hnum_b]
  ring

/-- The axis selector (`"e" | "n"`) of `isWithinBounds`. -/
inductive BoundsAxis
  | e
  | n
deriving DecidableEq, Repr

/-- `isWithinBounds` from `utils.ts`. -/
def isWithinBounds (value : ℚ) (bounds : Sweref99Bounds) (axis : BoundsAxis) : Bool :=
  match axis with
  | .e => isInRange value bounds.eMin bounds.eMax
  | .n => isInRange value bounds.nMin bounds.nMax

/-- `findMatchingZones` from `utils.ts`. -/
def findMatchingZones (easting northing : ℚ) : List Sweref99Projection :=
  SWEREF99_ZONES.filter fun zone =>
    isWithinBounds easting zone.bounds .e && isWithinBounds northing zone.bounds .n

instance : Inhabited Sweref99Projection := ⟨SWEREF99_TM⟩

/-- The loop of `getNearestZoneByCentralMeridian`: walk the zone table keeping
the zone with the strictly smallest `|centralMeridian - longitude|`
(`bestDiff = none` models the initial `Infinity`). -/
def nearestZoneGo (lon : ℚ) (best : Sweref99Projection) (bestDiff : Option ℚ) :
    List Sweref99Projection → Sweref99Projection
  | [] => best
  | z :: rest =>
    let d := |qSub z.centralMeridian lon|
    if (match bestDiff with
        | none => true
        | some bd => d < bd) then
      nearestZoneGo lon z (some d) rest
    else nearestZoneGo lon best bestDiff rest

/-- `getNearestZoneByCentralMeridian` from `utils.ts`. -/
def getNearestZoneByCentralMeridian (lon : ℚ) : Sweref99Projection :=
  nearestZoneGo lon SWEREF99_ZONES.headI none SWEREF99_ZONES

/-- The comparator of `rankZoneCandidates` as a boolean `cmp a b <= 0`:
`targetZone` sorts before everything, everything sorts after `targetZone`,
and otherwise zones compare by `|centralMeridian - longitude|`. -/
def zoneLe (targetZone : Sweref99Projection) (lon : ℚ)
    (a b : Sweref99Projection) : Bool :=
  if a = targetZone then true
  else if b = targetZone then false
  else |qSub a.centralMeridian lon| ≤ |qSub b.centralMeridian lon|

/-- Insertion of an element into a sorted list, before the first element it
compares `le` to; used to model the (stable) JS `Array.prototype.sort`. -/
def insertSorted (le : α → α → Bool) (x : α) : List α → List α
  | [] => [x]
  | y :: ys => if le x y then x :: y :: ys else y :: insertSorted le x ys

/-- Stable insertion sort.  For a consistent comparator the result of the
(stable, ES2019) JS `Array.prototype.sort` is the unique stable `le`-sorted
permutation, which this computes. -/
def stableSort (le : α → α → Bool) : List α → List α
  | [] => []
  | x :: xs => insertSorted le x (stableSort le xs)

/-- `rankZoneCandidates` from `utils.ts`: with no candidates or a falsy
longitude (`null` or `0`) the candidates are returned unranked; otherwise they
are sorted by the `zoneLe` comparator around the nearest zone. -/
def rankZoneCandidates (candidates : List Sweref99Projection)
    (longitude : Option ℚ) : List Sweref99Projection :=
  match longitude with
  | none => candidates
  | some lon =>
    if candidates.length = 0 || lon = 0 then candidates
    else
      let targetZone := getNearestZoneByCentralMeridian lon
      stableSort (zoneLe targetZone lon) candidates

/-- `ProjectionDetectionResult` from `config/types.ts`. -/
structure ProjectionDetectionResult where
  projection : Option Sweref99Projection
  confidence : ℚ
  alternatives : List Sweref99Projection
  warnings : List String
deriving DecidableEq, Repr

/-- `buildDetectionResult` from `utils.ts`: attach
`coordinateWarningNearBoundary` when a projection was chosen and the easting
is within `COORDINATE_WARNING_BUFFER_METERS` of its `eMin`/`eMax`. -/
def buildDetectionResult (projection : Option Sweref99Projection)
    (confidence : ℚ) (alternatives : List Sweref99Projection)
    (easting : ℚ) : ProjectionDetectionResult :=
  let warnings : List String :=
    match projection with
    | some p =>
      if |qSub easting p.bounds.eMin| ≤ COORDINATE_WARNING_BUFFER_METERS ||
          |qSub p.bounds.eMax easting| ≤ COORDINATE_WARNING_BUFFER_METERS then
        ["coordinateWarningNearBoundary"]
      else []
    | none => []
  ⟨projection, confidence, alternatives, warnings⟩

/-- `CoordinateProjectionPreference` from `config/enums.ts`. -/
inductive CoordinateProjectionPreference
  | auto
  | tm
  | zone
deriving DecidableEq, Repr

/-- `DEFAULT_COORDINATE_PREFERENCE`. -/
def DEFAULT_COORDINATE_PREFERENCE : CoordinateProjectionPreference := .auto

/-- `detectProjection` from `utils.ts` is split below into its locals
(`tmLikely`, `zoneCandidates`, `ranked`) and its resolution ladder.  The
map-centre argument is modelled as the already-extracted longitude
(`getLonFromPoint(params.mapCenter)`, `none` for a missing centre), and the
decimal confidences `0.9`, `0.85`, `0.7`, `0.6` are written `mkRat 9 10` etc.
so that the kernel can evaluate them.  The `tmLikely` test: -/
def tmLikelyFor (easting : ℚ) : Bool :=
  TM_EASTING_MIN ≤ easting && easting ≤ TM_EASTING_MAX

/-- The `zoneCandidates` local of `detectProjection`: the matching zones when
the easting is in the zonal band, `[]` otherwise. -/
def zoneCandidatesFor (easting northing : ℚ) : List Sweref99Projection :=
  if ZONE_EASTING_MIN ≤ easting && easting ≤ ZONE_EASTING_MAX then
    findMatchingZones easting northing
  else []

/-- The `ranked` local of `detectProjection`. -/
def rankedCandidatesFor (easting northing : ℚ) (mapLon : Option ℚ) :
    List Sweref99Projection :=
  rankZoneCandidates (zoneCandidatesFor easting northing) mapLon

/-- The resolution ladder of `detectProjection`. -/
def detectProjection (easting northing : ℚ) (mapLon : Option ℚ)
    (preference : CoordinateProjectionPreference) : ProjectionDetectionResult :=
  if preference = .zone && (zoneCandidatesFor easting northing).length ≠ 0 then
    buildDetectionResult (rankedCandidatesFor easting northing mapLon).head? 1
      (rankedCandidatesFor easting northing mapLon).tail easting
  else if preference = .tm && tmLikelyFor easting then
    buildDetectionResult (some SWEREF99_TM) (mkRat 9 10)
      (zoneCandidatesFor easting northing) easting
  else if (zoneCandidatesFor easting northing).length = 1 then
    buildDetectionResult (zoneCandidatesFor easting northing).head? 1 [] easting
  else if 1 < (zoneCandidatesFor easting northing).length then
    buildDetectionResult (rankedCandidatesFor easting northing mapLon).head?
      (if mapLon = none then mkRat 7 10 else mkRat 85 100)
      (rankedCandidatesFor easting northing mapLon).tail easting
  else if tmLikelyFor easting then
    buildDetectionResult (some SWEREF99_TM) (mkRat 6 10) [] easting
  else ⟨none, 0, [], ["coordinateErrorNoProjection"]⟩

/-! ## Bounds validation (`utils.ts`) -/

/-- `isSweref99Range` from `utils.ts`. -/
def isSweref99Range (easting northing : ℚ) : Bool :=
  isInRange easting GLOBAL_EASTING_MIN GLOBAL_EASTING_MAX &&
  isInRange northing GLOBAL_NORTHING_MIN GLOBAL_NORTHING_MAX

/-- `withinProjectionBounds` from `utils.ts`. -/
def withinProjectionBounds (easting northing : ℚ)
    (projection : Option Sweref99Projection) : Bool :=
  match projection with
  | none => isSweref99Range easting northing
  | some p =>
    isInRange easting p.bounds.eMin p.bounds.eMax &&
    isInRange northing p.bounds.nMin p.bounds.nMax

/-- `checkBoundaryWarning` from `utils.ts`. -/
def checkBoundaryWarning (easting : ℚ) (projection : Sweref99Projection) :
    List String :=
  let nearWest := |qSub easting projection.bounds.eMin| ≤ COORDINATE_WARNING_BUFFER_METERS
  let nearEast := |qSub projection.bounds.eMax easting| ≤ COORDINATE_WARNING_BUFFER_METERS
  if nearWest || nearEast then ["coordinateWarningNearBoundary"] else []

/-- `CoordinateValidationResult` from `config/types.ts`. -/
structure CoordinateValidationResult where
  valid : Bool
  errors : List String
  warnings : List String
deriving DecidableEq, Repr

/-- `validateCoordinates` from `utils.ts`.  The `isFiniteNumber` guard of the
source is vacuous in the ℚ model (every rational is a finite number), so the
`coordinateErrorInvalidNumber` branch cannot be taken here. -/
def validateCoordinates (easting northing : ℚ)
    (projection : Option Sweref99Projection) : CoordinateValidationResult :=
  let errors : List String :=
    if projection.isSome && !withinProjectionBounds easting northing projection then
      ["coordinateErrorOutOfBounds"]
    else if !isSweref99Range easting northing then
      ["coordinateErrorOutOfRange"]
    else []
  let warnings : List String :=
    if errors = [] then
      match projection with
      | some p => checkBoundaryWarning easting p
      | none => []
    else []
  ⟨errors = [], errors, warnings⟩

example :
    (detectProjection 125452 6178897 none .auto).projection =
      some (buildZoneProjection ⟨"12 00", "SWEREF 99 12 00", 3007, 12⟩) := by
  decide

example : (detectProjection 125452 6178897 none .auto).confidence = mkRat 7 10 := by
  decide

example :
    (detectProjection 125452 6178897 (some 14) .auto).projection =
      some (buildZoneProjection ⟨"14 15", "SWEREF 99 14 15", 3012, mkRat 1425 100⟩) := by
  decide

example : (detectProjection 500000 6500000 none .auto).confidence = mkRat 6 10 := by
  decide

example :
    (validateCoordinates 125452 6178897 (some (buildZoneProjection
      ⟨"12 00", "SWEREF 99 12 00", 3007, 12⟩))).valid = true := by
  decide

example : checkBoundaryWarning 55000 (SWEREF99_ZONES.headI) =
    ["coordinateWarningNearBoundary"] := by decide

/-! ## The async transformer (`transformSweref99ToMap` in `utils.ts`) -/

/-- A spatial reference; `wkid` is `none` when the JS object has no numeric
`wkid` (a WKT-only reference). -/
structure SpatialRef where
  wkid : Option ℚ
deriving DecidableEq, Repr

/-- An `__esri.Point` as far as the transformer observes it. -/
structure EsriPoint where
  x : ℚ
  y : ℚ
  spatialReference : Option SpatialRef
deriving DecidableEq, Repr

/-- `TransformParams` from `config/types.ts` (`spatialReference` may be
`null`).  JS `modules` is the loaded ArcGIS module object; its behaviour is
the separate `ProjectionModuleBehavior` oracle. -/
structure TransformParams where
  easting : ℚ
  northing : ℚ
  projection : Sweref99Projection
  spatialReference : Option SpatialRef
deriving DecidableEq, Repr

/-- `validateTransformParams` from `utils.ts`: `some key` is a thrown error.
The `isFiniteNumber` guards on `epsg`, `easting` and `northing` are vacuous
in the ℚ model; the falsy/positivity test on `epsg` remains. -/
def validateTransformParams (params : TransformParams) : Option String :=
  if params.spatialReference = none then some "coordinateErrorNoSpatialReference"
  else if !(0 < params.projection.epsg : Bool) then some "coordinateErrorInvalidProjection"
  else none

/-- `createSweref99Point` from `utils.ts`: validate, then build the source
point tagged with the projection's EPSG code. -/
def createSweref99Point (params : TransformParams) : Except String EsriPoint :=
  match validateTransformParams params with
  | some e => .error e
  | none =>
    .ok ⟨params.easting, params.northing, some ⟨some params.projection.epsg⟩⟩

/-- The observable behaviour of the lazily loaded `esri/geometry/projection`
module: whether `load()` (raced against its timeout) resolves or rejects, and
what the synchronous `project` returns (`none` models a non-point result). -/
structure ProjectionModuleBehavior where
  loadResult : Except String Unit
  project : EsriPoint → SpatialRef → Option EsriPoint
deriving Inhabited

/-- `transformSweref99ToMap` from `utils.ts`, with a boolean recording
whether the projection-module load was attempted: validate, build the source
point, return it unchanged when its reference already equals the target,
otherwise load the module, project, and stamp a missing spatial reference. -/
def transformSweref99ToMap (params : TransformParams)
    (module : ProjectionModuleBehavior) : Except String EsriPoint × Bool :=
  match params.spatialReference with
  | none => (.error "coordinateErrorNoSpatialReference", false)
  | some target =>
    if !(0 < params.projection.epsg : Bool) then
      (.error "coordinateErrorInvalidProjection", false)
    else
      let sourcePoint : EsriPoint :=
        ⟨params.easting, params.northing, some ⟨some params.projection.epsg⟩⟩
      if target.wkid = some params.projection.epsg then (.ok sourcePoint, false)
      else
        match module.loadResult with
        | .error e => (.error e, true)
        | .ok _ =>
          match module.project sourcePoint target with
          | none => (.error "coordinateErrorTransform", true)
          | some p =>
            if p.spatialReference = none then
              (.ok { p with spatialReference := some target }, true)
            else (.ok p, true)

/-! ## The search sequencer (`useCoordinateSearch` in `hooks.ts`)

`searchCoordinatesInternal` runs on a single-threaded event loop: everything
from the `++sequenceRef.current` up to the `await transformer.transform(...)`
is one synchronous segment, and everything after the `await` (the
`ensureCurrent()` check, the result assembly, the final sequence comparison
and the `onSuccess` call) is another.  Other invocations can only interleave
between the two segments, so the model is: phase 1 (increment and run the
synchronous pipeline), then a resumption that sees the counter value current
at that later time. -/

/-- A delivered callback: `onSuccess`/`onError` of the invocation with the
given sequence number. -/
inductive SearchEvent
  | success (seq : ℕ) (result : List String)
  | error (seq : ℕ) (key : String)
deriving DecidableEq, Repr

/-- The sequence number of the invocation a callback belongs to. -/
def eventSeq : SearchEvent → ℕ
  | .success s _ => s
  | .error s _ => s

/-- The data a pending invocation carries across its `await`. -/
structure PendingSearch where
  easting : ℚ
  northing : ℚ
  format : CoordinateInputFormat
  parseWarnings : List String
  detection : ProjectionDetectionResult
  projection : Sweref99Projection
  validation : CoordinateValidationResult
deriving DecidableEq, Repr

/-- Outcome of phase 1 of `searchCoordinatesInternal`: a synchronous failure
(`failWith`) or a pending transform. -/
inductive Phase1Result
  | failed (key : String)
  | pending (p : PendingSearch)
deriving DecidableEq, Repr

/-- Phase 1 of `searchCoordinatesInternal`: `parser.parseCoordinates`
(sanitize then parse), projection detection, validation.  The
`ensureCurrent()` checkpoints inside this synchronous segment always pass
(no other invocation can run between them), and a `failWith` here both
delivers `onError` and raises the key. -/
def searchPhase1 (mapLon : Option ℚ) (pref : CoordinateProjectionPreference)
    (input : Str) : Phase1Result :=
  match parseCoordinateString (sanitizeCoordinateInput input) with
  | .err e => .failed e
  | .ok e n format _sanitized warning =>
    let parseWarnings := match warning with
      | some w => [w]
      | none => []
    let detection := detectProjection e n mapLon pref
    match detection.projection with
    | none => .failed "coordinateErrorNoProjection"
    | some proj =>
      let validation := validateCoordinates e n (some proj)
      if !validation.valid then
        .failed (validation.errors.headD "coordinateErrorOutOfBounds")
      else .pending ⟨e, n, format, parseWarnings, detection, proj, validation⟩

/-- First-occurrence deduplication (`Array.from(new Set(...))`). -/
def dedupFirstGo (seen : List String) : List String → List String
  | [] => []
  | x :: rest =>
    if x ∈ seen then dedupFirstGo seen rest
    else x :: dedupFirstGo (x :: seen) rest

/-- `Array.from(new Set(l))`. -/
def dedupFirst (l : List String) : List String := dedupFirstGo [] l

/-- How an invocation's promise settles. -/
inductive SearchOutcome
  | fulfilled (warnings : List String)
  | raised (msg : String)
deriving DecidableEq, Repr

/-- The post-`await` segment of `searchCoordinatesInternal` for the invocation
with sequence number `seq`, resuming when the shared counter is `counterNow`
and its transform settled as `tres`.  A rejected transform propagates before
the `ensureCurrent()` after the `await`; on success the staleness check, the
result assembly, the final sequence comparison and the `onSuccess` call are
one synchronous segment.  The success event carries the combined deduplicated
warnings of the result. -/
def searchResume (counterNow seq : ℕ) (p : PendingSearch)
    (tres : Except String EsriPoint) : List SearchEvent × SearchOutcome :=
  match tres with
  | .error e =>
    if e = "coordinateSearchOutdated" then ([], .raised e)
    else if seq = counterNow then ([.error seq e], .raised e)
    else ([], .raised e)
  | .ok _point =>
    if seq ≠ counterNow then ([], .raised "coordinateSearchOutdated")
    else
      let combinedWarnings :=
        dedupFirst (p.parseWarnings ++ p.detection.warnings ++ p.validation.warnings)
      ([.success seq combinedWarnings], .fulfilled combinedWarnings)

/-- The observable trace of two overlapping `searchCoordinates` calls. -/
structure TwoCallTrace where
  events : List SearchEvent
  outA : SearchOutcome
  outB : SearchOutcome
deriving DecidableEq, Repr

/-- Two invocations `A` then `B` of `searchCoordinatesInternal` with a shared
counter starting at `c0`: `A` captures `c0 + 1`; if `A` suspends at its
transform, `B` starts (capturing `c0 + 2`) before `A` resumes, and the two
resumptions then run in either order (`aResumesFirst`), each seeing the final
counter value `c0 + 2`.  If an invocation fails synchronously it delivers its
error event during its own segment, while it is still current. -/
def runTwoSearches (mapLon : Option ℚ) (pref : CoordinateProjectionPreference)
    (inputA inputB : Str) (tA tB : Except String EsriPoint)
    (aResumesFirst : Bool) (c0 : ℕ) : TwoCallTrace :=
  match searchPhase1 mapLon pref inputA with
  | .failed keyA =>
    match searchPhase1 mapLon pref inputB with
    | .failed keyB =>
      ⟨[.error (c0 + 1) keyA, .error (c0 + 2) keyB], .raised keyA, .raised keyB⟩
    | .pending pB =>
      let rB := searchResume (c0 + 2) (c0 + 2) pB tB
      ⟨.error (c0 + 1) keyA :: rB.1, .raised keyA, rB.2⟩
  | .pending pA =>
    match searchPhase1 mapLon pref inputB with
    | .failed keyB =>
      let rA := searchResume (c0 + 2) (c0 + 1) pA tA
      ⟨.error (c0 + 2) keyB :: rA.1, rA.2, .raised keyB⟩
    | .pending pB =>
      if aResumesFirst then
        let rA := searchResume (c0 + 2) (c0 + 1) pA tA
        let rB := searchResume (c0 + 2) (c0 + 2) pB tB
        ⟨rA.1 ++ rB.1, rA.2, rB.2⟩
      else
        let rB := searchResume (c0 + 2) (c0 + 2) pB tB
        let rA := searchResume (c0 + 2) (c0 + 1) pA tA
        ⟨rB.1 ++ rA.1, rA.2, rB.2⟩

example :
    (runTwoSearches none .auto "125452 6178897".toList "125452 6178897".toList
      (.ok ⟨1, 2, none⟩) (.ok ⟨1, 2, none⟩) true 0) =
    ⟨[.success 2 []], .raised "coordinateSearchOutdated", .fulfilled []⟩ := by
  decide

/-! ## Helper lemmas about the parser -/

theorem buildCoordinateResult_ok_warning {e n : ℚ} {f : CoordinateInputFormat}
    {s : Option Str} {w : Option String} {e' n' : ℚ} {f' : CoordinateInputFormat}
    {s' : Option Str} {w' : Option String}
    (h : buildCoordinateResult e n f s w = .ok e' n' f' s' w') : w' = w := by
  unfold buildCoordinateResult at h
  split at h
  · exact absurd h (by simp)
  · split at h
    · exact absurd h (by simp)
    · injection h with h1 h2 h3 h4 h5
      exact h5.symm

theorem detectAxisOrder_warning_eq_none {a b : ℚ} {r : AxisOrder}
    (h : detectAxisOrder a b = some r) : r.warning = none := by
  unfold detectAxisOrder at h
  split at h
  · exact absurd h (by simp)
  · split at h
    · injection h with h'; rw [← h']
    · split at h
      · injection h with h'; rw [← h']
      · split at h
        · injection h with h'; rw [← h']
        · split at h
          · injection h with h'; rw [← h']
          · split at h
            case isTrue hcond =>
              injection h with h'
              rw [← h']
              simp only
              split
              case isTrue hSecondE =>
                exfalso
                simp only [isEastingRange, isNorthingRange, MIN_EASTING,
                  MAX_EASTING, MIN_NORTHING, MAX_NORTHING, Bool.and_eq_true,
                  decide_eq_true_eq] at hcond hSecondE
                linarith [hcond.2.1, hSecondE.2]
              case isFalse _ => rfl
            · split at h
              case isTrue hcond =>
                injection h with h'
                rw [← h']
                simp only
                split
                case isTrue hFirstE =>
                  exfalso
                  simp only [isEastingRange, isNorthingRange, MIN_EASTING,
                    MAX_EASTING, MIN_NORTHING, MAX_NORTHING, Bool.and_eq_true,
                    decide_eq_true_eq] at hcond hFirstE
                  linarith [hcond.1.1, hFirstE.2]
                case isFalse _ => rfl
              · exact absurd h (by simp)

theorem parseNumbersBranch_ok_warning {sanitized : Str}
    {format : CoordinateInputFormat} {e n : ℚ} {f : CoordinateInputFormat}
    {sa : Option Str} {w : Option String}
    (h : parseNumbersBranch sanitized format = .ok e n f sa w) : w = none := by
  unfold parseNumbersBranch at h
  split at h
  · exact absurd h (by simp)
  · split at h
    case h_1 first second rest hcand =>
      split at h
      · exact absurd h (by simp)
      case h_2 ao hao =>
        rw [buildCoordinateResult_ok_warning h]
        exact detectAxisOrder_warning_eq_none hao
    · exact absurd h (by simp)

theorem parseCoordinateString_ok_warning {s : Str} {e n : ℚ}
    {f : CoordinateInputFormat} {sa : Option Str} {w : Option String}
    (h : parseCoordinateString s = .ok e n f sa w) : w = none := by
  rw [parseCoordinateString] at h
  split at h
  · exact absurd h (by simp)
  · split at h
    · exact absurd h (by simp)
    · split at h
      · exact absurd h (by simp)
      · split at h
        case h_1 r hr =>
          split at hr
          · unfold parseLabeledBranch at hr
            split at hr
            case h_1 heq =>
              injection hr with hr'
              rw [← hr'] at h
              exact buildCoordinateResult_ok_warning h
            case h_2 heq => exact absurd hr (by simp)
          · exact absurd hr (by simp)
        case h_2 hr =>
          exact parseNumbersBranch_ok_warning h

/-! ## Claim C2 -/

/-- C2: the claim states that `parseCoordinateString` applied to
`"500000,6500000"` succeeds with easting `500000`, northing `6500000` and
format `CommaSeparated` (as the repository's own plan document also demands).
The code disagrees: `NUMBER_CAPTURE_REGEX` greedily swallows the comma, the
whole input becomes a single numeric token, the whitespace fallback cannot
split it, and the parse fails with `coordinateErrorParse`.  This theorem
evaluates the embedded code at the failing input and exhibits the single
merged regex capture. -/
theorem C2_comma_pair_parse_error :
    parseCoordinateString "500000,6500000".toList = .err "coordinateErrorParse" ∧
    extractNumbers "500000,6500000".toList = ["500000,6500000".toList] := by
  decide

/-! ## Claim C3 -/

/-- C3 counterexample: the claim says `parseCoordinateString "13.5,60.5"`
fails with `coordinateErrorNotSweref`; in the code it fails with
`coordinateErrorParse` instead. -/
theorem C3_counterexample_not_sweref_key :
    parseCoordinateString "13.5,60.5".toList ≠ .err "coordinateErrorNotSweref" ∧
    parseCoordinateString "13.5,60.5".toList = .err "coordinateErrorParse" := by
  decide

/-- C3 (amended): for every pair that looks like geographic
latitude/longitude the axis-order resolver returns `null`, and
`parseCoordinateString` then fails with the error key `coordinateErrorParse`
(not `coordinateErrorNotSweref`); in particular
`parseCoordinateString "13.5,60.5"` fails with `coordinateErrorParse`. -/
theorem C3_wgs84_rejected_resolver_null :
    (∀ a b : ℚ, isLikelyWgs84 a b = true → detectAxisOrder a b = none) ∧
    parseCoordinateString "13.5,60.5".toList = .err "coordinateErrorParse" :=
  ⟨fun a b h => by unfold detectAxisOrder; simp [h], by decide⟩

/-- C3 witness: the amended theorem applied at the WGS84-looking pair
`(13.5, 60.5)`. -/
theorem C3_witness :
    isLikelyWgs84 (mkRat 27 2) (mkRat 121 2) = true ∧
    detectAxisOrder (mkRat 27 2) (mkRat 121 2) = none :=
  ⟨by decide, C3_wgs84_rejected_resolver_null.1 (mkRat 27 2) (mkRat 121 2) (by decide)⟩

/-! ## Claim C9 -/

/-- C9: the easting range `[30000, 800000]` and the northing range
`[5900000, 7800000]` are disjoint, so no value qualifies as both easting and
northing; therefore `detectAxisOrder` (and hence `parseCoordinateString`)
never returns the `coordinateWarningAmbiguousOrder` warning -- the two
ambiguous-order branches can never attach it. -/
theorem C9_ambiguous_warning_unreachable :
    (∀ a b : ℚ, ∀ r : AxisOrder, detectAxisOrder a b = some r →
      r.warning ≠ some "coordinateWarningAmbiguousOrder") ∧
    (∀ s : Str, ∀ e n : ℚ, ∀ f : CoordinateInputFormat, ∀ sa : Option Str,
      ∀ w : Option String, parseCoordinateString s = .ok e n f sa w →
      w ≠ some "coordinateWarningAmbiguousOrder") := by
  constructor
  · intro a b r h
    rw [detectAxisOrder_warning_eq_none h]
    simp
  · intro s e n f sa w h
    rw [parseCoordinateString_ok_warning h]
    simp

/-- C9 witness: the theorem applied to a concrete resolver call and a
concrete successful parse. -/
theorem C9_witness :
    ((detectAxisOrder 100000 6500000).getD ⟨0, 0, none⟩).warning ≠
      some "coordinateWarningAmbiguousOrder" ∧
    (none : Option String) ≠ some "coordinateWarningAmbiguousOrder" :=
  ⟨C9_ambiguous_warning_unreachable.1 100000 6500000
      ((detectAxisOrder 100000 6500000).getD ⟨0, 0, none⟩) (by decide),
   C9_ambiguous_warning_unreachable.2 "125452 6178897".toList 125452 6178897
      .spaceSeparated (some "125452 6178897".toList) none (by decide)⟩

/-! ## Claim C7 -/

theorem checkBoundaryWarning_eq (e : ℚ) (p : Sweref99Projection) :
    checkBoundaryWarning e p =
      (if |e - p.bounds.eMin| ≤ 5000 ∨ |p.bounds.eMax - e| ≤ 5000 then
        ["coordinateWarningNearBoundary"]
      else []) := by
  unfold checkBoundaryWarning
  simp only [qSub_eq, COORDINATE_WARNING_BUFFER_METERS, Bool.or_eq_true,
    decide_eq_true_eq]

theorem buildDetectionResult_warnings_some (p : Sweref99Projection)
    (conf : ℚ) (alts : List Sweref99Projection) (e : ℚ) :
    (buildDetectionResult (some p) conf alts e).warnings =
      (if |e - p.bounds.eMin| ≤ 5000 ∨ |p.bounds.eMax - e| ≤ 5000 then
        ["coordinateWarningNearBoundary"]
      else []) := by
  unfold buildDetectionResult
  simp only [qSub_eq, COORDINATE_WARNING_BUFFER_METERS, Bool.or_eq_true,
    decide_eq_true_eq]

theorem projection_bounds_cases :
    ∀ p ∈ SWEREF99_PROJECTIONS,
      p.bounds = (⟨50000, 250000, 6100000, 7700000⟩ : Sweref99Bounds) ∨
      p.bounds = (⟨300000, 700000, 6100000, 7700000⟩ : Sweref99Bounds) := by
  decide

/-- C7: for every projection of the table, an easting exactly `5000` units
from its `eMin` or `eMax` always yields `coordinateWarningNearBoundary`, and
an easting `5001` units away never does -- both in projection detection
(`buildDetectionResult`) and in bounds validation (`checkBoundaryWarning`). -/
theorem C7_boundary_buffer_exact (p : Sweref99Projection)
    (hp : p ∈ SWEREF99_PROJECTIONS) (e conf : ℚ) (alts : List Sweref99Projection) :
    ((|e - p.bounds.eMin| = 5000 ∨ |p.bounds.eMax - e| = 5000) →
      (buildDetectionResult (some p) conf alts e).warnings =
          ["coordinateWarningNearBoundary"] ∧
        checkBoundaryWarning e p = ["coordinateWarningNearBoundary"]) ∧
    ((|e - p.bounds.eMin| = 5001 ∨ |p.bounds.eMax - e| = 5001) →
      (buildDetectionResult (some p) conf alts e).warnings = [] ∧
        checkBoundaryWarning e p = []) := by
  have hwidth : 10002 ≤ p.bounds.eMax - p.bounds.eMin := by
    rcases projection_bounds_cases p hp with h | h <;> rw [h] <;> norm_num
  constructor
  · intro heq
    have hcond : |e - p.bounds.eMin| ≤ 5000 ∨ |p.bounds.eMax - e| ≤ 5000 := by
      rcases heq with h | h
      · exact Or.inl (le_of_eq h)
      · exact Or.inr (le_of_eq h)
    rw [buildDetectionResult_warnings_some, checkBoundaryWarning_eq, if_pos hcond]
    exact ⟨rfl, rfl⟩
  · intro heq
    have hcond : ¬(|e - p.bounds.eMin| ≤ 5000 ∨ |p.bounds.eMax - e| ≤ 5000) := by
      rcases heq with h | h
      · rcases (abs_eq (by norm_num : (0:ℚ) ≤ 5001)).mp h with h' | h'
        · intro hc
          rcases hc with hc | hc
          · rw [h] at hc; norm_num at hc
          · have h1 := le_abs_self (p.bounds.eMax - e)
            have h2 := (abs_le.mp hc).2
            linarith
        · intro hc
          rcases hc with hc | hc
          · rw [h] at hc; norm_num at hc
          · have h2 := (abs_le.mp hc).2
            linarith
      · rcases (abs_eq (by norm_num : (0:ℚ) ≤ 5001)).mp h with h' | h'
        · intro hc
          rcases hc with hc | hc
          · have h2 := (abs_le.mp hc).2
            linarith
          · rw [h] at hc; norm_num at hc
        · intro hc
          rcases hc with hc | hc
          · have h2 := (abs_le.mp hc).2
            linarith
          · rw [h] at hc; norm_num at hc
    rw [buildDetectionResult_warnings_some, checkBoundaryWarning_eq, if_neg hcond]
    exact ⟨rfl, rfl⟩

/-- C7 witness: the theorem applied to the TM projection at eastings exactly
`5000` and `5001` units from its western bound `300000`. -/
theorem C7_witness :
    ((buildDetectionResult (some SWEREF99_TM) 1 [] 305000).warnings =
        ["coordinateWarningNearBoundary"] ∧
      checkBoundaryWarning 305000 SWEREF99_TM = ["coordinateWarningNearBoundary"]) ∧
    ((buildDetectionResult (some SWEREF99_TM) 1 [] 305001).warnings = [] ∧
      checkBoundaryWarning 305001 SWEREF99_TM = []) :=
  ⟨(C7_boundary_buffer_exact SWEREF99_TM (by decide) 305000 1 []).1
      (Or.inl (by norm_num [SWEREF99_TM])),
   (C7_boundary_buffer_exact SWEREF99_TM (by decide) 305001 1 []).2
      (Or.inl (by norm_num [SWEREF99_TM]))⟩

/-! ## Claim C8 -/

/-- C8: for every valid transform request whose source projection's EPSG code
equals the target spatial reference's `wkid`, `transformSweref99ToMap`
returns the constructed source point unchanged and never attempts the
projection-module load (the `false` component), regardless of how the module
would behave. -/
theorem C8_transform_same_wkid_skips_load (params : TransformParams)
    (module : ProjectionModuleBehavior) (target : SpatialRef)
    (hsr : params.spatialReference = some target)
    (hwkid : target.wkid = some params.projection.epsg)
    (hepsg : 0 < params.projection.epsg) :
    transformSweref99ToMap params module =
      (Except.ok ⟨params.easting, params.northing,
        some ⟨some params.projection.epsg⟩⟩, false) ∧
    createSweref99Point params =
      Except.ok ⟨params.easting, params.northing,
        some ⟨some params.projection.epsg⟩⟩ := by
  constructor
  · unfold transformSweref99ToMap
    rw [hsr]
    simp [hwkid, hepsg]
  · unfold createSweref99Point validateTransformParams
    rw [hsr]
    simp [hepsg]

/-- C8 witness: the theorem applied to a TM-projection request whose target
reference is already `EPSG:3006`, with a module oracle that would fail both
the load and the projection -- the result is still the unchanged source
point with no load attempted. -/
theorem C8_witness :
    transformSweref99ToMap ⟨500000, 6500000, SWEREF99_TM, some ⟨some 3006⟩⟩
        ⟨Except.error "coordinateErrorProjectionTimeout", fun _ _ => none⟩ =
      (Except.ok ⟨500000, 6500000, some ⟨some 3006⟩⟩, false) ∧
    createSweref99Point ⟨500000, 6500000, SWEREF99_TM, some ⟨some 3006⟩⟩ =
      Except.ok ⟨500000, 6500000, some ⟨some 3006⟩⟩ :=
  C8_transform_same_wkid_skips_load
    ⟨500000, 6500000, SWEREF99_TM, some ⟨some 3006⟩⟩
    ⟨Except.error "coordinateErrorProjectionTimeout", fun _ _ => none⟩
    ⟨some 3006⟩ rfl (by decide) (by decide)

/-! ## Claim C10 -/

theorem stripTagsGo_length_le (m : Bool) (l : Str) :
    (stripTagsGo m l).length ≤ l.length := by
  induction l generalizing m with
  | nil => cases m <;> simp [stripTagsGo]
  | cons c rest ih =>
    cases m with
    | true =>
      simp only [stripTagsGo]
      split
      · exact le_trans (ih false) (by simp)
      · exact le_trans (ih true) (by simp)
    | false =>
      simp only [stripTagsGo]
      split
      · split
        · exact le_trans (ih true) (by simp)
        · exact le_refl _
      · simpa using ih false

theorem collapseWsGo_length_le (m : Bool) (l : Str) :
    (collapseWsGo m l).length ≤ l.length := by
  induction l generalizing m with
  | nil => cases m <;> simp [collapseWsGo]
  | cons c rest ih =>
    simp only [collapseWsGo]
    split
    · split
      · exact le_trans (ih true) (by simp)
      · simpa using ih true
    · simpa using ih false

theorem trimWs_length_le (l : Str) : (trimWs l).length ≤ l.length := by
  unfold trimWs
  calc ((l.dropWhile isJsWs).reverse.dropWhile isJsWs).reverse.length
      = ((l.dropWhile isJsWs).reverse.dropWhile isJsWs).length := by simp
    _ ≤ (l.dropWhile isJsWs).reverse.length :=
        (List.dropWhile_suffix _).sublist.length_le
    _ = (l.dropWhile isJsWs).length := by simp
    _ ≤ l.length := (List.dropWhile_suffix _).sublist.length_le

theorem sanitizeCoordinateInputInternal_length_le (l : Str) :
    (sanitizeCoordinateInputInternal l).length ≤ l.length := by
  unfold sanitizeCoordinateInputInternal collapseWs stripTags
  calc (trimWs (collapseWsGo false ((stripTagsGo false l).filter keepCoordChar))).length
      ≤ (collapseWsGo false ((stripTagsGo false l).filter keepCoordChar)).length :=
        trimWs_length_le _
    _ ≤ ((stripTagsGo false l).filter keepCoordChar).length :=
        collapseWsGo_length_le _ _
    _ ≤ (stripTagsGo false l).length := List.length_filter_le _ _
    _ ≤ l.length := stripTagsGo_length_le _ _

theorem buildCoordinateResult_ne_tooLong {e n : ℚ} {f : CoordinateInputFormat}
    {s : Option Str} {w : Option String} :
    buildCoordinateResult e n f s w ≠ .err "coordinateErrorTooLong" := by
  unfold buildCoordinateResult
  split
  · simp
  · split
    · simp
    · simp

theorem parseNumbersBranch_ne_tooLong {sanitized : Str}
    {format : CoordinateInputFormat} :
    parseNumbersBranch sanitized format ≠ .err "coordinateErrorTooLong" := by
  unfold parseNumbersBranch
  split
  · simp
  · split
    · split
      · simp
      · exact buildCoordinateResult_ne_tooLong
    · simp

/-- C10: the composed search path (`useCoordinateParser.parseCoordinates`,
used by `searchCoordinates`) first truncates the input to
`COORDINATE_INPUT_MAX_LENGTH = 200` characters with `sanitizeCoordinateInput`;
`parseCoordinateString` then re-sanitizes, and since re-sanitization never
lengthens a string, the `coordinateErrorTooLong` branch is unreachable at
this interface. -/
theorem C10_tooLong_unreachable_composed (s : Str) :
    parseCoordinateString (sanitizeCoordinateInput s) ≠ .err "coordinateErrorTooLong" := by
  intro h
  rw [parseCoordinateString] at h
  split at h
  · exact absurd h (by decide)
  · split at h
    · exact absurd h (by decide)
    · split at h
      case isTrue hlen =>
        have hb : (sanitizeCoordinateInputInternal (sanitizeCoordinateInput s)).length ≤
            COORDINATE_INPUT_MAX_LENGTH := by
          calc (sanitizeCoordinateInputInternal (sanitizeCoordinateInput s)).length
              ≤ (sanitizeCoordinateInput s).length :=
                sanitizeCoordinateInputInternal_length_le _
            _ ≤ COORDINATE_INPUT_MAX_LENGTH := by
                unfold sanitizeCoordinateInput
                exact List.length_take_le _ _
        omega
      case isFalse =>
        split at h
        case h_1 r hr =>
          split at hr
          · unfold parseLabeledBranch at hr
            split at hr
            case h_1 heq =>
              injection hr with hr'
              rw [← hr'] at h
              exact buildCoordinateResult_ne_tooLong h
            case h_2 heq => exact absurd hr (by simp)
          · exact absurd hr (by simp)
        case h_2 hr => exact parseNumbersBranch_ne_tooLong h

/-- C10 witness: the composed parse of a 300-`1` input (which would exceed
the 200-character limit unsanitized) does not fail with
`coordinateErrorTooLong`. -/
theorem C10_witness :
    parseCoordinateString (sanitizeCoordinateInput (List.replicate 300 '1')) ≠
      .err "coordinateErrorTooLong" :=
  C10_tooLong_unreachable_composed (List.replicate 300 '1')

/-! ## Claim C6: ranking lemmas -/

theorem insertSorted_perm (le : α → α → Bool) (x : α) (l : List α) :
    (insertSorted le x l).Perm (x :: l) := by
  induction l with
  | nil => simp [insertSorted]
  | cons y ys ih =>
    simp only [insertSorted]
    split
    · exact List.Perm.refl _
    · exact (ih.cons y).trans (List.Perm.swap x y ys)

theorem stableSort_perm (le : α → α → Bool) (l : List α) :
    (stableSort le l).Perm l := by
  induction l with
  | nil => simp [stableSort]
  | cons x xs ih =>
    simp only [stableSort]
    exact (insertSorted_perm le x (stableSort le xs)).trans (ih.cons x)

theorem insertSorted_pairwise (le : α → α → Bool)
    (htrans : ∀ a b c, le a b = true → le b c = true → le a c = true)
    (htotal : ∀ a b, le a b = true ∨ le b a = true) (x : α) (l : List α)
    (hl : l.Pairwise (le · · = true)) :
    (insertSorted le x l).Pairwise (le · · = true) := by
  induction l with
  | nil => simp [insertSorted]
  | cons y ys ih =>
    simp only [insertSorted]
    split
    case isTrue hxy =>
      refine List.Pairwise.cons ?_ hl
      intro z hz
      rcases List.mem_cons.mp hz with rfl | hz'
      · exact hxy
      · exact htrans x y z hxy (List.rel_of_pairwise_cons hl hz')
    case isFalse hxy =>
      have hyx : le y x = true := by
        rcases htotal x y with h | h
        · exact absurd h hxy
        · exact h
      refine List.Pairwise.cons ?_ (ih (List.Pairwise.of_cons hl))
      · intro z hz
        have hz' := (insertSorted_perm le x ys).mem_iff.mp hz
        rcases List.mem_cons.mp hz' with rfl | hz''
        · exact hyx
        · exact List.rel_of_pairwise_cons hl hz''

theorem stableSort_pairwise (le : α → α → Bool)
    (htrans : ∀ a b c, le a b = true → le b c = true → le a c = true)
    (htotal : ∀ a b, le a b = true ∨ le b a = true) (l : List α) :
    (stableSort le l).Pairwise (le · · = true) := by
  induction l with
  | nil => simp [stableSort]
  | cons x xs ih =>
    simp only [stableSort]
    exact insertSorted_pairwise le htrans htotal x _ ih

theorem zoneLe_total (t : Sweref99Projection) (lon : ℚ)
    (a b : Sweref99Projection) :
    zoneLe t lon a b = true ∨ zoneLe t lon b a = true := by
  unfold zoneLe
  by_cases hat : a = t
  · left; rw [if_pos hat]
  · by_cases hbt : b = t
    · right; rw [if_pos hbt]
    · rcases le_total |qSub a.centralMeridian lon| |qSub b.centralMeridian lon| with h | h
      · left
        rw [if_neg hat, if_neg hbt]
        exact decide_eq_true h
      · right
        rw [if_neg hbt, if_neg hat]
        exact decide_eq_true h

theorem zoneLe_trans (t : Sweref99Projection) (lon : ℚ)
    (a b c : Sweref99Projection) (hab : zoneLe t lon a b = true)
    (hbc : zoneLe t lon b c = true) : zoneLe t lon a c = true := by
  unfold zoneLe at *
  by_cases hat : a = t
  · simp [hat]
  · by_cases hbt : b = t
    · simp [hat, hbt] at hab
    · by_cases hct : c = t
      · simp [hbt, hct] at hbc
      · simp only [hat, hbt, hct, if_false, decide_eq_true_eq] at hab hbc ⊢
        exact le_trans hab hbc

theorem zoneLe_head_ne_target {t : Sweref99Projection} {lon : ℚ}
    {h : Sweref99Projection} (hne : h ≠ t) : zoneLe t lon h t = false := by
  unfold zoneLe
  rw [if_neg hne, if_pos rfl]

theorem stableSort_zoneLe_head (t : Sweref99Projection) (lon : ℚ)
    (candidates : List Sweref99Projection) (ht : t ∈ candidates) :
    (stableSort (zoneLe t lon) candidates).head? = some t := by
  have hperm := stableSort_perm (zoneLe t lon) candidates
  have hpair := stableSort_pairwise (zoneLe t lon) (zoneLe_trans t lon)
    (zoneLe_total t lon) candidates
  have htm : t ∈ stableSort (zoneLe t lon) candidates := hperm.mem_iff.mpr ht
  match hs : stableSort (zoneLe t lon) candidates with
  | [] => rw [hs] at htm; exact absurd htm (List.not_mem_nil t)
  | h :: tail =>
    rw [hs] at htm hpair
    by_cases hht : h = t
    · rw [hht]; rfl
    · rcases List.mem_cons.mp htm with heq | htail
      · exact absurd heq.symm hht
      · have := List.rel_of_pairwise_cons hpair htail
        rw [zoneLe_head_ne_target hht] at this
        exact absurd this (by simp)

theorem nearestZoneGo_spec (lon : ℚ) (zs : List Sweref99Projection) :
    ∀ (best : Sweref99Projection) (bd : Option ℚ),
      (bd = none ∨ bd = some |qSub best.centralMeridian lon|) →
      ((nearestZoneGo lon best bd zs = best ∨ nearestZoneGo lon best bd zs ∈ zs) ∧
       (∀ z ∈ zs, |qSub (nearestZoneGo lon best bd zs).centralMeridian lon| ≤
          |qSub z.centralMeridian lon|) ∧
       (∀ d, bd = some d →
          |qSub (nearestZoneGo lon best bd zs).centralMeridian lon| ≤ d)) := by
  induction zs with
  | nil =>
    intro best bd hbd
    refine ⟨Or.inl rfl, by simp, ?_⟩
    intro d hd
    rcases hbd with h | h
    · rw [h] at hd; exact absurd hd (by simp)
    · rw [h] at hd
      injection hd with hd'
      rw [← hd']
      simp [nearestZoneGo]
  | cons z rest ih =>
    intro best bd hbd
    simp only [nearestZoneGo]
    split
    case isTrue hbet =>
      obtain ⟨hmem, hmin, hbest⟩ :=
        ih z (some |qSub z.centralMeridian lon|) (Or.inr rfl)
      refine ⟨?_, ?_, ?_⟩
      · rcases hmem with h | h
        · exact Or.inr (by rw [h]; exact List.mem_cons_self z rest)
        · exact Or.inr (List.mem_cons_of_mem z h)
      · intro w hw
        rcases List.mem_cons.mp hw with rfl | hw'
        · exact hbest _ rfl
        · exact hmin w hw'
      · intro d hd
        rcases hbd with h | h
        · rw [h] at hd; exact absurd hd (by simp)
        · rw [h] at hd
          injection hd with hd'
          rw [← hd']
          have hlt : |qSub z.centralMeridian lon| < |qSub best.centralMeridian lon| := by
            rw [h] at hbet
            simpa using hbet
          exact le_trans (hbest _ rfl) (le_of_lt hlt)
    case isFalse hbet =>
      obtain ⟨hmem, hmin, hbest⟩ := ih best bd hbd
      have hbd' : ∃ bdv, bd = some bdv ∧ bdv ≤ |qSub z.centralMeridian lon| := by
        rcases hbd with h | h
        · rw [h] at hbet; simp at hbet
        · refine ⟨_, h, ?_⟩
          rw [h] at hbet
          simpa using hbet
      refine ⟨?_, ?_, ?_⟩
      · rcases hmem with h | h
        · exact Or.inl h
        · exact Or.inr (List.mem_cons_of_mem z h)
      · intro w hw
        rcases List.mem_cons.mp hw with rfl | hw'
        · obtain ⟨bdv, hbdv, hle⟩ := hbd'
          exact le_trans (hbest bdv hbdv) hle
        · exact hmin w hw'
      · exact hbest

theorem getNearestZone_mem_min (lon : ℚ) :
    getNearestZoneByCentralMeridian lon ∈ SWEREF99_ZONES ∧
    ∀ z ∈ SWEREF99_ZONES,
      |qSub (getNearestZoneByCentralMeridian lon).centralMeridian lon| ≤
        |qSub z.centralMeridian lon| := by
  have h := nearestZoneGo_spec lon SWEREF99_ZONES SWEREF99_ZONES.headI none (Or.inl rfl)
  unfold getNearestZoneByCentralMeridian
  refine ⟨?_, h.2.1⟩
  rcases h.1 with he | hm
  · rw [he]
    decide
  · exact hm

theorem zone_bounds_all : ∀ z ∈ SWEREF99_ZONES, z.bounds = ZONE_BOUNDS := by
  decide

theorem zoneCandidatesFor_ne_nil_eq_all (e n : ℚ)
    (hne : zoneCandidatesFor e n ≠ []) :
    zoneCandidatesFor e n = SWEREF99_ZONES := by
  unfold zoneCandidatesFor at hne ⊢
  split at hne
  case isTrue hband =>
    rw [if_pos hband]
    unfold findMatchingZones at hne ⊢
    obtain ⟨z, hz⟩ := List.exists_mem_of_ne_nil _ hne
    obtain ⟨hzm, hzc⟩ := List.mem_filter.mp hz
    apply List.filter_eq_self.mpr
    intro w hw
    rw [zone_bounds_all w hw]
    rw [zone_bounds_all z hzm] at hzc
    exact hzc
  case isFalse => exact absurd rfl hne

theorem buildDetectionResult_projection (p : Option Sweref99Projection)
    (c : ℚ) (a : List Sweref99Projection) (e : ℚ) :
    (buildDetectionResult p c a e).projection = p := rfl

theorem buildDetectionResult_confidence (p : Option Sweref99Projection)
    (c : ℚ) (a : List Sweref99Projection) (e : ℚ) :
    (buildDetectionResult p c a e).confidence = c := rfl

theorem buildDetectionResult_alternatives (p : Option Sweref99Projection)
    (c : ℚ) (a : List Sweref99Projection) (e : ℚ) :
    (buildDetectionResult p c a e).alternatives = a := rfl

theorem detectProjection_multi (e n : ℚ) (mapLon : Option ℚ)
    (h1 : 1 < (zoneCandidatesFor e n).length) :
    detectProjection e n mapLon .auto =
      buildDetectionResult (rankedCandidatesFor e n mapLon).head?
        (if mapLon = none then mkRat 7 10 else mkRat 85 100)
        (rankedCandidatesFor e n mapLon).tail e := by
  unfold detectProjection
  rw [if_neg (by simp), if_neg (by simp), if_neg (by omega), if_pos (by omega)]

/-- C6: whenever an easting/northing pair is matched by two or more zone
candidates (with the default `Auto` preference), `detectProjection` with a
known map-centre longitude selects a candidate whose `centralMeridian` is
closest to that longitude, reports confidence `0.85`, and returns the
remaining candidates as the alternatives; with no longitude it returns the
candidates in table order (head as projection, tail as alternatives) with
confidence `0.7`. -/
theorem C6_multi_zone_ranking (e n : ℚ) (mapLon : Option ℚ)
    (h2 : 2 ≤ (zoneCandidatesFor e n).length) :
    (∀ lon, mapLon = some lon →
      ∃ z, (detectProjection e n mapLon .auto).projection = some z ∧
        z ∈ zoneCandidatesFor e n ∧
        (∀ w ∈ zoneCandidatesFor e n,
          |z.centralMeridian - lon| ≤ |w.centralMeridian - lon|) ∧
        (detectProjection e n mapLon .auto).confidence = mkRat 85 100 ∧
        (z :: (detectProjection e n mapLon .auto).alternatives).Perm
          (zoneCandidatesFor e n)) ∧
    (mapLon = none →
      (detectProjection e n mapLon .auto).projection =
          (zoneCandidatesFor e n).head? ∧
        (detectProjection e n mapLon .auto).confidence = mkRat 7 10 ∧
        (detectProjection e n mapLon .auto).alternatives =
          (zoneCandidatesFor e n).tail) := by
  have h1 : 1 < (zoneCandidatesFor e n).length := by omega
  have hne : zoneCandidatesFor e n ≠ [] := by
    intro h
    rw [h] at h2
    simp at h2
  have hall := zoneCandidatesFor_ne_nil_eq_all e n hne
  rw [detectProjection_multi e n mapLon h1, buildDetectionResult_projection,
    buildDetectionResult_confidence, buildDetectionResult_alternatives]
  constructor
  · intro lon hlon
    subst hlon
    by_cases hlon0 : lon = 0
    · subst hlon0
      have hrank : rankedCandidatesFor e n (some 0) = zoneCandidatesFor e n := by
        unfold rankedCandidatesFor rankZoneCandidates
        simp
      refine ⟨SWEREF99_ZONES.headI, ?_, ?_, ?_, by simp, ?_⟩
      · rw [hrank, hall]
        decide
      · rw [hall]
        decide
      · intro w hw
        rw [hall] at hw
        have h12 : (12 : ℚ) ≤ w.centralMeridian :=
          (by decide : ∀ w ∈ SWEREF99_ZONES, (12 : ℚ) ≤ w.centralMeridian) w hw
        have hcm : SWEREF99_ZONES.headI.centralMeridian = 12 := by decide
        rw [hcm, sub_zero, sub_zero, abs_of_nonneg (by norm_num : (0:ℚ) ≤ 12),
          abs_of_nonneg (le_trans (by norm_num) h12)]
        exact h12
      · rw [hrank, hall]
        have hz : SWEREF99_ZONES.headI :: SWEREF99_ZONES.tail = SWEREF99_ZONES := by
          decide
        rw [hz]
    · have hlen0 : (zoneCandidatesFor e n).length ≠ 0 := by omega
      have hrank : rankedCandidatesFor e n (some lon) =
          stableSort (zoneLe (getNearestZoneByCentralMeridian lon) lon)
            (zoneCandidatesFor e n) := by
        unfold rankedCandidatesFor rankZoneCandidates
        simp [hlon0, hlen0]
      obtain ⟨htmem, htmin⟩ := getNearestZone_mem_min lon
      have hhead : (stableSort (zoneLe (getNearestZoneByCentralMeridian lon) lon)
          (zoneCandidatesFor e n)).head? = some (getNearestZoneByCentralMeridian lon) :=
        stableSort_zoneLe_head _ lon _ (by rw [hall]; exact htmem)
      refine ⟨getNearestZoneByCentralMeridian lon, ?_, ?_, ?_, by simp, ?_⟩
      · rw [hrank, hhead]
      · rw [hall]
        exact htmem
      · intro w hw
        rw [hall] at hw
        have := htmin w hw
        rwa [qSub_eq, qSub_eq] at this
      · rw [hrank]
        have hcons : getNearestZoneByCentralMeridian lon ::
            (stableSort (zoneLe (getNearestZoneByCentralMeridian lon) lon)
              (zoneCandidatesFor e n)).tail =
            stableSort (zoneLe (getNearestZoneByCentralMeridian lon) lon)
              (zoneCandidatesFor e n) :=
          List.cons_head?_tail (by rw [hhead]; rfl)
        rw [hcons]
        exact stableSort_perm _ _
  · intro hlon
    subst hlon
    have hrank : rankedCandidatesFor e n none = zoneCandidatesFor e n := rfl
    rw [hrank]
    exact ⟨rfl, by simp, rfl⟩

/-- C6 witness: the theorem applied at `(125452, 6178897)`, where all 12
zones match: with longitude `14` the detector must pick a zone whose
central meridian is nearest `14` at confidence `0.85`, and with no longitude
it returns table order at confidence `0.7`. -/
theorem C6_witness :
    (∃ z, (detectProjection 125452 6178897 (some 14) .auto).projection = some z ∧
      z ∈ zoneCandidatesFor 125452 6178897 ∧
      (∀ w ∈ zoneCandidatesFor 125452 6178897,
        |z.centralMeridian - 14| ≤ |w.centralMeridian - 14|) ∧
      (detectProjection 125452 6178897 (some 14) .auto).confidence = mkRat 85 100 ∧
      (z :: (detectProjection 125452 6178897 (some 14) .auto).alternatives).Perm
        (zoneCandidatesFor 125452 6178897)) ∧
    ((detectProjection 125452 6178897 none .auto).projection =
        (zoneCandidatesFor 125452 6178897).head? ∧
      (detectProjection 125452 6178897 none .auto).confidence = mkRat 7 10 ∧
      (detectProjection 125452 6178897 none .auto).alternatives =
        (zoneCandidatesFor 125452 6178897).tail) :=
  ⟨(C6_multi_zone_ranking 125452 6178897 (some 14) (by decide)).1 14 rfl,
   (C6_multi_zone_ranking 125452 6178897 none (by decide)).2 rfl⟩

/-! ## Claim C5: sanitizer idempotence machinery -/

/-- The separation relation of a collapsed string: no two adjacent
whitespace characters. -/
def noWsPair (a b : Char) : Prop :=
  ¬(isJsWs a = true ∧ isJsWs b = true)

theorem mem_collapseWsGo {a : Char} : ∀ (m : Bool) (l : Str),
    a ∈ collapseWsGo m l → a = ' ' ∨ a ∈ l := by
  intro m l
  induction l generalizing m with
  | nil => intro h; cases m <;> simp [collapseWsGo] at h
  | cons c rest ih =>
    intro h
    simp only [collapseWsGo] at h
    split at h
    · split at h
      · rcases ih true h with h' | h'
        · exact Or.inl h'
        · exact Or.inr (List.mem_cons_of_mem c h')
      · rcases List.mem_cons.mp h with rfl | h'
        · exact Or.inl rfl
        · rcases ih true h' with h'' | h''
          · exact Or.inl h''
          · exact Or.inr (List.mem_cons_of_mem c h'')
    · rcases List.mem_cons.mp h with rfl | h'
      · exact Or.inr (List.mem_cons_self a rest)
      · rcases ih false h' with h'' | h''
        · exact Or.inl h''
        · exact Or.inr (List.mem_cons_of_mem c h'')

theorem ws_mem_collapseWsGo_eq_space {a : Char} : ∀ (m : Bool) (l : Str),
    a ∈ collapseWsGo m l → isJsWs a = true → a = ' ' := by
  intro m l
  induction l generalizing m with
  | nil => intro h _; cases m <;> simp [collapseWsGo] at h
  | cons c rest ih =>
    intro h hws
    simp only [collapseWsGo] at h
    split at h
    · split at h
      · exact ih true h hws
      · rcases List.mem_cons.mp h with rfl | h'
        · rfl
        · exact ih true h' hws
    case isFalse hc =>
      rcases List.mem_cons.mp h with rfl | h'
      · exact absurd hws (by simp [hc])
      · exact ih false h' hws

theorem head_collapseWsGo_true_not_ws {d : Char} : ∀ (l : Str),
    (collapseWsGo true l).head? = some d → isJsWs d = false := by
  intro l
  induction l with
  | nil => intro h; simp [collapseWsGo] at h
  | cons c rest ih =>
    intro h
    simp only [collapseWsGo] at h
    split at h
    · exact ih h
    case isFalse hc =>
      injection h with h'
      rw [← h']
      simpa using hc

theorem chain'_collapseWsGo : ∀ (m : Bool) (l : Str),
    (collapseWsGo m l).Chain' noWsPair := by
  intro m l
  induction l generalizing m with
  | nil => cases m <;> simp [collapseWsGo]
  | cons c rest ih =>
    simp only [collapseWsGo]
    split
    · split
      · exact ih true
      · rw [List.chain'_cons']
        refine ⟨?_, ih true⟩
        intro y hy
        have := head_collapseWsGo_true_not_ws rest hy
        intro hpair
        rw [this] at hpair
        exact absurd hpair.2 (by simp)
    case isFalse hc =>
      rw [List.chain'_cons']
      refine ⟨?_, ih false⟩
      intro y hy
      intro hpair
      exact absurd hpair.1 (by simp [hc])

theorem collapseWsGo_true_of_head_not_ws {l : Str}
    (h : ∀ d ∈ l.head?, isJsWs d = false) :
    collapseWsGo true l = collapseWsGo false l := by
  cases l with
  | nil => rfl
  | cons c rest =>
    have hc : isJsWs c = false := h c rfl
    simp only [collapseWsGo, hc]
    simp

theorem collapseWsGo_false_eq_self {l : Str} (hchain : l.Chain' noWsPair)
    (hmem : ∀ c ∈ l, isJsWs c = true → c = ' ') :
    collapseWsGo false l = l := by
  induction l with
  | nil => rfl
  | cons c rest ih =>
    simp only [collapseWsGo]
    rw [List.chain'_cons'] at hchain
    split
    case isTrue hc =>
      have hspace : c = ' ' := hmem c (List.mem_cons_self c rest) hc
      have hhead : ∀ d ∈ rest.head?, isJsWs d = false := by
        intro d hd
        have := hchain.1 d hd
        unfold noWsPair at this
        by_contra hcon
        exact this ⟨hc, by simpa using hcon⟩
      rw [collapseWsGo_true_of_head_not_ws hhead,
        ih hchain.2 (fun x hx => hmem x (List.mem_cons_of_mem c hx)), hspace]
      simp
    · rw [ih hchain.2 (fun x hx => hmem x (List.mem_cons_of_mem c hx))]

theorem dropWhile_eq_self_of_head {p : Char → Bool} {l : Str}
    (h : ∀ d ∈ l.head?, p d = false) : l.dropWhile p = l := by
  cases l with
  | nil => rfl
  | cons c rest =>
    have hc : p c = false := h c rfl
    simp [List.dropWhile, hc]

theorem trimWs_eq_self {l : Str} (hh : ∀ d ∈ l.head?, isJsWs d = false)
    (hl : ∀ d ∈ l.getLast?, isJsWs d = false) : trimWs l = l := by
  unfold trimWs
  rw [dropWhile_eq_self_of_head hh]
  rw [dropWhile_eq_self_of_head (by rw [List.head?_reverse]; exact hl)]
  exact List.reverse_reverse l

theorem head_dropWhile_false {p : Char → Bool} {l : Str} {d : Char}
    (h : (l.dropWhile p).head? = some d) : p d = false := by
  have := List.head?_dropWhile_not p l
  rw [h] at this
  exact this

theorem trimWs_head_not_ws {l : Str} {d : Char}
    (h : (trimWs l).head? = some d) : isJsWs d = false := by
  unfold trimWs at h
  rw [List.head?_reverse] at h
  -- `d` is the last element of `dropWhile ws (reverse (dropWhile ws l))`,
  -- which is a suffix of `reverse (dropWhile ws l)`; its last element is the
  -- head of `dropWhile ws l`, which is not whitespace.
  have hdec := List.takeWhile_append_dropWhile isJsWs ((l.dropWhile isJsWs).reverse)
  have hne : (l.dropWhile isJsWs).reverse.dropWhile isJsWs ≠ [] := by
    intro hnil
    rw [hnil] at h
    exact absurd h (by simp)
  have hlast : ((l.dropWhile isJsWs).reverse.dropWhile isJsWs).getLast? =
      ((l.dropWhile isJsWs).reverse).getLast? := by
    conv_rhs => rw [← hdec]
    exact (List.getLast?_append_of_ne_nil _ hne).symm
  rw [hlast, List.getLast?_reverse] at h
  exact head_dropWhile_false h

theorem trimWs_getLast_not_ws {l : Str} {d : Char}
    (h : (trimWs l).getLast? = some d) : isJsWs d = false := by
  unfold trimWs at h
  rw [List.getLast?_reverse] at h
  exact head_dropWhile_false h

theorem trimWs_idem (l : Str) : trimWs (trimWs l) = trimWs l :=
  trimWs_eq_self (fun d hd => trimWs_head_not_ws hd)
    (fun d hd => trimWs_getLast_not_ws hd)

theorem trimWs_decomp (l : Str) : ∃ u v, l = u ++ trimWs l ++ v := by
  have h2 : l.dropWhile isJsWs =
      trimWs l ++ ((l.dropWhile isJsWs).reverse.takeWhile isJsWs).reverse := by
    unfold trimWs
    conv_lhs => rw [← List.reverse_reverse (l.dropWhile isJsWs)]
    conv_lhs =>
      rw [← List.takeWhile_append_dropWhile isJsWs ((l.dropWhile isJsWs).reverse)]
    rw [List.reverse_append]
  refine ⟨l.takeWhile isJsWs,
    ((l.dropWhile isJsWs).reverse.takeWhile isJsWs).reverse, ?_⟩
  conv_lhs => rw [← List.takeWhile_append_dropWhile isJsWs l, h2]
  rw [List.append_assoc]

theorem mem_trimWs {a : Char} {l : Str} (h : a ∈ trimWs l) : a ∈ l := by
  obtain ⟨u, v, hdec⟩ := trimWs_decomp l
  rw [hdec]
  simp only [List.mem_append]
  exact Or.inl (Or.inr h)

theorem chain'_trimWs {l : Str} (h : l.Chain' noWsPair) :
    (trimWs l).Chain' noWsPair := by
  obtain ⟨u, v, hdec⟩ := trimWs_decomp l
  rw [hdec] at h
  exact (h.left_of_append).right_of_append

/-- A match of `HTML_TAG_REGEX` exists: some `<` with a later `>`. -/
def hasTag : Str → Bool
  | [] => false
  | c :: rest => (c = '<' && rest.contains '>') || hasTag rest

theorem hasTag_false_of_no_gt {l : Str} (h : '>' ∉ l) : hasTag l = false := by
  induction l with
  | nil => rfl
  | cons c rest ih =>
    simp only [hasTag, Bool.or_eq_false_iff, Bool.and_eq_false_iff]
    constructor
    · right
      simp only [List.elem_eq_mem, decide_eq_false_iff_not]
      intro hc
      exact h (List.mem_cons_of_mem c hc)
    · exact ih (fun hc => h (List.mem_cons_of_mem c hc))

theorem hasTag_cons_false {c : Char} {rest : Str}
    (h : hasTag (c :: rest) = false) :
    (c = '<' → '>' ∉ rest) ∧ hasTag rest = false := by
  simp only [hasTag, Bool.or_eq_false_iff, Bool.and_eq_false_iff] at h
  refine ⟨?_, h.2⟩
  intro hc hm
  rcases h.1 with h' | h'
  · simp [hc] at h'
  · simp only [List.contains, List.elem_eq_mem, decide_eq_false_iff_not] at h'
    exact h' hm

theorem hasTag_false_append_left {l₁ l₂ : Str}
    (h : hasTag (l₁ ++ l₂) = false) : hasTag l₁ = false := by
  induction l₁ with
  | nil => rfl
  | cons c rest ih =>
    rw [List.cons_append] at h
    obtain ⟨h1, h2⟩ := hasTag_cons_false h
    simp only [hasTag, Bool.or_eq_false_iff, Bool.and_eq_false_iff]
    refine ⟨?_, ih h2⟩
    by_cases hc : c = '<'
    · right
      simp only [List.elem_eq_mem, decide_eq_false_iff_not]
      intro hm
      exact h1 hc (List.mem_append.mpr (Or.inl hm))
    · left
      simpa using hc

theorem hasTag_false_append_right {l₁ l₂ : Str}
    (h : hasTag (l₁ ++ l₂) = false) : hasTag l₂ = false := by
  induction l₁ with
  | nil => exact h
  | cons c rest ih =>
    rw [List.cons_append] at h
    exact ih (hasTag_cons_false h).2

theorem stripTagsGo_hasTag_false : ∀ (m : Bool) (l : Str),
    hasTag (stripTagsGo m l) = false := by
  intro m l
  induction l generalizing m with
  | nil => cases m <;> rfl
  | cons c rest ih =>
    cases m with
    | true =>
      simp only [stripTagsGo]
      split
      · exact ih false
      · exact ih true
    | false =>
      simp only [stripTagsGo]
      split
      case isTrue hc =>
        split
        case isTrue hgt => exact ih true
        case isFalse hgt =>
          simp only [hasTag, Bool.or_eq_false_iff, Bool.and_eq_false_iff]
          refine ⟨?_, hasTag_false_of_no_gt hgt⟩
          right
          simp only [List.elem_eq_mem, decide_eq_false_iff_not]
          exact hgt
      case isFalse hc =>
        simp only [hasTag, Bool.or_eq_false_iff, Bool.and_eq_false_iff]
        constructor
        · left
          simpa using hc
        · exact ih false

theorem stripTagsGo_eq_self {l : Str} (h : hasTag l = false) :
    stripTagsGo false l = l := by
  induction l with
  | nil => rfl
  | cons c rest ih =>
    obtain ⟨h1, h2⟩ := hasTag_cons_false h
    simp only [stripTagsGo]
    split
    case isTrue hc =>
      rw [if_neg (h1 hc)]
    case isFalse hc =>
      rw [ih h2]

theorem hasTag_false_filter {p : Char → Bool} {l : Str}
    (h : hasTag l = false) : hasTag (l.filter p) = false := by
  induction l with
  | nil => rfl
  | cons c rest ih =>
    obtain ⟨h1, h2⟩ := hasTag_cons_false h
    rw [List.filter_cons]
    split
    · simp only [hasTag, Bool.or_eq_false_iff, Bool.and_eq_false_iff]
      constructor
      · by_cases hc : c = '<'
        · right
          simp only [List.elem_eq_mem, decide_eq_false_iff_not]
          intro hm
          exact h1 hc (List.mem_of_mem_filter hm)
        · left
          simpa using hc
      · exact ih h2
    · exact ih h2

theorem contains_gt_collapseWsGo {m : Bool} {l : Str}
    (h : '>' ∈ collapseWsGo m l) : '>' ∈ l := by
  rcases mem_collapseWsGo m l h with h' | h'
  · exact absurd h' (by decide)
  · exact h'

theorem hasTag_false_collapseWsGo {l : Str} (h : hasTag l = false) :
    ∀ m : Bool, hasTag (collapseWsGo m l) = false := by
  induction l with
  | nil => intro m; cases m <;> rfl
  | cons c rest ih =>
    obtain ⟨h1, h2⟩ := hasTag_cons_false h
    intro m
    simp only [collapseWsGo]
    split
    case isTrue hc =>
      split
      · exact ih h2 true
      · simp only [hasTag, Bool.or_eq_false_iff, Bool.and_eq_false_iff]
        refine ⟨Or.inl (by decide), ih h2 true⟩
    case isFalse hc =>
      simp only [hasTag, Bool.or_eq_false_iff, Bool.and_eq_false_iff]
      constructor
      · by_cases hlt : c = '<'
        · right
          simp only [List.elem_eq_mem, decide_eq_false_iff_not]
          intro hm
          exact h1 hlt (contains_gt_collapseWsGo hm)
        · left
          simpa using hlt
      · exact ih h2 false

theorem hasTag_false_trimWs {l : Str} (h : hasTag l = false) :
    hasTag (trimWs l) = false := by
  obtain ⟨u, v, hdec⟩ := trimWs_decomp l
  rw [hdec, List.append_assoc] at h
  exact hasTag_false_append_left (hasTag_false_append_right h)

theorem sanitizeCoordinateInputInternal_idem (l : Str) :
    sanitizeCoordinateInputInternal (sanitizeCoordinateInputInternal l) =
      sanitizeCoordinateInputInternal l := by
  set y := sanitizeCoordinateInputInternal l with hy
  have hTag : hasTag y = false := by
    rw [hy]
    unfold sanitizeCoordinateInputInternal collapseWs stripTags
    exact hasTag_false_trimWs (hasTag_false_collapseWsGo
      (hasTag_false_filter (stripTagsGo_hasTag_false false l)) false)
  have hstrip : stripTags y = y := stripTagsGo_eq_self hTag
  have hmem : ∀ c ∈ y, keepCoordChar c = true := by
    intro c hc
    rw [hy] at hc
    unfold sanitizeCoordinateInputInternal at hc
    have hc2 := mem_trimWs hc
    rcases mem_collapseWsGo false _ hc2 with h' | h'
    · rw [h']; decide
    · exact List.of_mem_filter h'
  have hfil : y.filter keepCoordChar = y := List.filter_eq_self.mpr hmem
  have hchain : y.Chain' noWsPair := by
    rw [hy]
    unfold sanitizeCoordinateInputInternal collapseWs
    exact chain'_trimWs (chain'_collapseWsGo false _)
  have hwsmem : ∀ c ∈ y, isJsWs c = true → c = ' ' := by
    intro c hc hws
    rw [hy] at hc
    unfold sanitizeCoordinateInputInternal collapseWs at hc
    exact ws_mem_collapseWsGo_eq_space false _ (mem_trimWs hc) hws
  have hcol : collapseWs y = y := collapseWsGo_false_eq_self hchain hwsmem
  have htrim : trimWs y = y := by
    rw [hy]
    unfold sanitizeCoordinateInputInternal
    exact trimWs_idem _
  show sanitizeCoordinateInputInternal y = y
  unfold sanitizeCoordinateInputInternal
  rw [hstrip, hfil, hcol, htrim]

theorem sanitizeSearchTermCore_no_angle (l : Str) (hlt : '<' ∉ l)
    (hgt : '>' ∉ l) :
    sanitizeSearchTermCore l = trimWs (collapseWs (l.filter keepSearchChar)) := by
  unfold sanitizeSearchTermCore
  congr 1
  apply List.filter_eq_self.mpr
  intro c hc
  rcases mem_collapseWsGo false _ hc with h' | h'
  · rw [h']; decide
  · have hcl := List.mem_of_mem_filter h'
    have h1 : ¬(c = '<') := fun he => hlt (he ▸ hcl)
    have h2 : ¬(c = '>') := fun he => hgt (he ▸ hcl)
    simp [h1, h2]

theorem sanitizeSearchTermCore_idem_of_no_angle (l : Str) (hlt : '<' ∉ l)
    (hgt : '>' ∉ l) :
    sanitizeSearchTermCore (sanitizeSearchTermCore l) = sanitizeSearchTermCore l := by
  rw [sanitizeSearchTermCore_no_angle l hlt hgt]
  set y := trimWs (collapseWs (l.filter keepSearchChar)) with hy
  have hmem : ∀ c ∈ y, keepSearchChar c = true ∧ ¬(c = '<') ∧ ¬(c = '>') := by
    intro c hc
    rw [hy] at hc
    unfold collapseWs at hc
    have hc2 := mem_trimWs hc
    rcases mem_collapseWsGo false _ hc2 with h' | h'
    · rw [h']
      refine ⟨by decide, by decide, by decide⟩
    · have hcl := List.mem_of_mem_filter h'
      exact ⟨List.of_mem_filter h', fun he => hlt (he ▸ hcl),
        fun he => hgt (he ▸ hcl)⟩
  have hfil : y.filter keepSearchChar = y :=
    List.filter_eq_self.mpr (fun c hc => (hmem c hc).1)
  have hangles : y.filter (fun c => !(c = '<' || c = '>')) = y := by
    apply List.filter_eq_self.mpr
    intro c hc
    simp [(hmem c hc).2.1, (hmem c hc).2.2]
  have hchain : y.Chain' noWsPair := by
    rw [hy]
    unfold collapseWs
    exact chain'_trimWs (chain'_collapseWsGo false _)
  have hwsmem : ∀ c ∈ y, isJsWs c = true → c = ' ' := by
    intro c hc hws
    rw [hy] at hc
    unfold collapseWs at hc
    exact ws_mem_collapseWsGo_eq_space false _ (mem_trimWs hc) hws
  have hcol : collapseWs y = y := collapseWsGo_false_eq_self hchain hwsmem
  have htrim : trimWs y = y := by
    rw [hy]
    exact trimWs_idem _
  show sanitizeSearchTermCore y = y
  unfold sanitizeSearchTermCore
  rw [hfil, hcol, hangles, htrim]

/-! ## Claim C5 -/

/-- C5 counterexample: neither sanitizer is idempotent on every input.  For
the general search-box sanitizer, deleting `<`/`>` after collapsing
whitespace can create a new run of spaces that only a second pass collapses
(`"a < > b"` becomes `"a   b"`, then `"a b"`).  For the coordinate sanitizer,
truncation at 200 characters can cut just after a space that only a second
pass trims (199 `a`s followed by `" b"`). -/
theorem C5_counterexample_not_idempotent :
    sanitizeSearchTerm (sanitizeSearchTerm "a < > b".toList) ≠
      sanitizeSearchTerm "a < > b".toList ∧
    sanitizeCoordinateInput (sanitizeCoordinateInput
        (List.replicate 199 'a' ++ " b".toList)) ≠
      sanitizeCoordinateInput (List.replicate 199 'a' ++ " b".toList) := by
  decide

/-- C5 (amended): the coordinate-input sanitizer is idempotent on every input
whose internally sanitized form does not exceed the 200-character truncation
limit, and the search-box sanitizer is idempotent on every input that
contains no `<` or `>` and whose core-sanitized form does not exceed its
256-character truncation limit. -/
theorem C5_sanitizers_idempotent_restricted :
    (∀ x : Str,
      (sanitizeCoordinateInputInternal x).length ≤ COORDINATE_INPUT_MAX_LENGTH →
      sanitizeCoordinateInput (sanitizeCoordinateInput x) = sanitizeCoordinateInput x) ∧
    (∀ x : Str, '<' ∉ x → '>' ∉ x → (sanitizeSearchTermCore x).length ≤ 256 →
      sanitizeSearchTerm (sanitizeSearchTerm x) = sanitizeSearchTerm x) := by
  constructor
  · intro x hlen
    have h1 : sanitizeCoordinateInput x = sanitizeCoordinateInputInternal x := by
      unfold sanitizeCoordinateInput
      exact List.take_of_length_le hlen
    rw [h1]
    unfold sanitizeCoordinateInput
    rw [sanitizeCoordinateInputInternal_idem]
    exact List.take_of_length_le hlen
  · intro x hlt hgt hlen
    by_cases hx : x = []
    · subst hx
      rfl
    · have hterm : sanitizeSearchTerm x = sanitizeSearchTermCore x := by
        unfold sanitizeSearchTerm
        rw [if_neg hx]
        exact List.take_of_length_le hlen
      rw [hterm]
      by_cases hy0 : sanitizeSearchTermCore x = []
      · rw [hy0]
        rfl
      · unfold sanitizeSearchTerm
        rw [if_neg hy0, sanitizeSearchTermCore_idem_of_no_angle x hlt hgt]
        exact List.take_of_length_le hlen

/-- C5 witness: the amended theorem applied to the plain input `"abc"` for
both sanitizers. -/
theorem C5_witness :
    sanitizeCoordinateInput (sanitizeCoordinateInput "abc".toList) =
      sanitizeCoordinateInput "abc".toList ∧
    sanitizeSearchTerm (sanitizeSearchTerm "abc".toList) =
      sanitizeSearchTerm "abc".toList :=
  ⟨C5_sanitizers_idempotent_restricted.1 "abc".toList (by decide),
   C5_sanitizers_idempotent_restricted.2 "abc".toList (by decide) (by decide)
     (by decide)⟩

/-! ## Claim C4: separator resolution in numeric normalization -/

theorem isDigit_toNat (x : Char) (h : x.isDigit = true) :
    48 ≤ x.toNat ∧ x.toNat ≤ 57 := by
  simp [Char.isDigit] at h
  exact h

theorem digit_ne (x : Char) (h : x.isDigit = true) (c : Char) (hc : 57 < c.toNat ∨ c.toNat < 48) :
    ¬(x = c) := by
  obtain ⟨h1, h2⟩ := isDigit_toNat x h
  intro he
  subst he
  omega

theorem digit_not_sepDash (x : Char) (h : x.isDigit = true) : isSepDash x = false := by
  simp only [isSepDash, Bool.or_eq_false_iff, decide_eq_false_iff_not]
  exact ⟨⟨digit_ne x h ',' (by right; decide), digit_ne x h '.' (by right; decide)⟩,
    digit_ne x h '-' (by right; decide)⟩

theorem digit_not_sepDot (x : Char) (h : x.isDigit = true) : isSepDot x = false := by
  simp only [isSepDot, Bool.or_eq_false_iff, decide_eq_false_iff_not]
  exact ⟨digit_ne x h ',' (by right; decide), digit_ne x h '.' (by right; decide)⟩

theorem digit_not_jsWs (x : Char) (h : x.isDigit = true) : isJsWs x = false := by
  obtain ⟨h1, h2⟩ := isDigit_toNat x h
  simp only [isJsWs, Bool.or_eq_false_iff, Bool.and_eq_false_iff,
    beq_eq_false_iff_ne, ne_eq, decide_eq_false_iff_not, not_le]
  omega

theorem mem_of_getLast?_eq (l : Str) (x : Char) (h : l.getLast? = some x) : x ∈ l := by
  have hm : x ∈ l.getLast? := by rw [h]; rfl
  obtain ⟨hne, heq⟩ := List.mem_getLast?_eq_getLast hm
  exact heq ▸ List.getLast_mem hne

theorem indexOf?_append_self (w u : Str) (ch : Char) (hw : ch ∉ w) :
    (w ++ ch :: u).indexOf? ch = some w.length := by
  induction w with
  | nil => simp [List.indexOf?_cons]
  | cons x xs ih =>
    have hxs : ch ∉ xs := fun hm => hw (List.mem_cons_of_mem x hm)
    rw [List.cons_append, List.indexOf?_cons, if_neg ?_, ih hxs]
    · rfl
    · simp only [beq_iff_eq]
      exact fun he => hw (he ▸ List.mem_cons_self x xs)

theorem jsLastIndexOf_eq (u v : Str) (ch : Char) (hv : ch ∉ v) :
    jsLastIndexOf (u ++ ch :: v) ch = ((u.length : ℕ) : Int) := by
  unfold jsLastIndexOf
  have hrev : (u ++ ch :: v).reverse = v.reverse ++ ch :: u.reverse := by simp
  rw [hrev, indexOf?_append_self _ _ _ (by simpa using hv)]
  simp only [List.length_append, List.length_cons, List.length_reverse]
  have : u.length + (v.length + 1) - 1 - v.length = u.length := by omega
  rw [this]

theorem hasSepRun2_eq_false (l : Str)
    (h : List.Chain' (fun x y => isSepDash x = false ∨ isSepDash y = false) l) :
    hasSepRun2 l = false := by
  induction l with
  | nil => rfl
  | cons x rest ih =>
    cases rest with
    | nil => rfl
    | cons y rest2 =>
      rw [List.chain'_cons] at h
      show (isSepDash x && isSepDash y || hasSepRun2 (y :: rest2)) = false
      rw [ih h.2, Bool.or_false]
      rcases h.1 with h1 | h1 <;> simp [h1]

theorem cleanNumericRaw_eq_self (l : Str)
    (h : ∀ x ∈ l, ¬(x.toNat = 160) ∧
      (x.isDigit || isJsWs x || x = ',' || x = '.' || x = '-') = true) :
    cleanNumericRaw l = l := by
  unfold cleanNumericRaw
  have hmap : l.map (fun c => if c.toNat = 160 then ' ' else c) = l := by
    conv_rhs => rw [← List.map_id l]
    apply List.map_congr_left
    intro x hx
    simp [if_neg (h x hx).1]
  rw [hmap, List.filter_eq_self.mpr (fun x hx => (h x hx).2)]

theorem chainSep_of_all (l : Str) (h : ∀ x ∈ l, isSepDash x = false) :
    List.Chain' (fun x y => isSepDash x = false ∨ isSepDash y = false) l :=
  (List.pairwise_of_forall_mem_list (fun x hx _ _ => Or.inl (h x hx))).chain'

theorem normalize_two_sep (a b c : Str) (s1 s2 : Char)
    (hs1 : s1 = '.' ∨ s1 = ',') (hs2 : s2 = '.' ∨ s2 = ',')
    (ha : a ≠ []) (hb : b ≠ []) (hc : c ≠ [])
    (hda : ∀ x ∈ a, x.isDigit = true) (hdb : ∀ x ∈ b, x.isDigit = true)
    (hdc : ∀ x ∈ c, x.isDigit = true) :
    normalizeNumericString (a ++ s1 :: b ++ s2 :: c) =
      resolveSeparators [] (a ++ s1 :: b ++ s2 :: c) := by
  have hsep1 : ¬(s1.toNat = 160) ∧ (s1.isDigit || isJsWs s1 || s1 = ',' || s1 = '.' || s1 = '-') = true
      ∧ isSepDash s1 = true ∧ isSepDot s1 = true ∧ isJsWs s1 = false
      ∧ ¬(s1 = '+') ∧ ¬(s1 = '-') := by
    rcases hs1 with rfl | rfl <;>
      exact ⟨by decide, by decide, by decide, by decide, by decide, by decide, by decide⟩
  have hsep2 : ¬(s2.toNat = 160) ∧ (s2.isDigit || isJsWs s2 || s2 = ',' || s2 = '.' || s2 = '-') = true
      ∧ isSepDash s2 = true ∧ isSepDot s2 = true ∧ isJsWs s2 = false
      ∧ ¬(s2 = '+') ∧ ¬(s2 = '-') := by
    rcases hs2 with rfl | rfl <;>
      exact ⟨by decide, by decide, by decide, by decide, by decide, by decide, by decide⟩
  set l : Str := a ++ s1 :: b ++ s2 :: c with hl
  have hl2 : l = (a ++ s1 :: b) ++ s2 :: c := hl
  have hmem : ∀ x ∈ l, x.isDigit = true ∨ x = s1 ∨ x = s2 := by
    intro x hx
    rw [hl2] at hx
    simp only [List.mem_append, List.mem_cons] at hx
    rcases hx with (hx | hx | hx) | hx | hx
    · exact Or.inl (hda x hx)
    · exact Or.inr (Or.inl hx)
    · exact Or.inl (hdb x hx)
    · exact Or.inr (Or.inr hx)
    · exact Or.inl (hdc x hx)
  have hdigit_clean : ∀ x : Char, x.isDigit = true → ¬(x.toNat = 160) ∧
      (x.isDigit || isJsWs x || x = ',' || x = '.' || x = '-') = true := by
    intro x hx
    obtain ⟨h1, h2⟩ := isDigit_toNat x hx
    exact ⟨by omega, by simp [hx]⟩
  have hclean : cleanNumericRaw l = l := by
    apply cleanNumericRaw_eq_self
    intro x hx
    rcases hmem x hx with hx' | rfl | rfl
    · exact hdigit_clean x hx'
    · exact ⟨hsep1.1, hsep1.2.1⟩
    · exact ⟨hsep2.1, hsep2.2.1⟩
  have hlne : l ≠ [] := by
    rw [hl2]
    simp [List.append_eq_nil, ha]
  have habne : a ++ s1 :: b ≠ [] := by
    simp [List.append_eq_nil, ha]
  have hhead : l.head? = some (a.head ha) := by
    rw [hl2, List.head?_append_of_ne_nil _ habne, List.head?_append_of_ne_nil a ha,
      List.head?_eq_head ha]
  have hheadd : (a.head ha).isDigit = true := hda _ (List.head_mem ha)
  have hlast : l.getLast? = some (c.getLast hc) := by
    rw [hl2, List.getLast?_append_cons (a ++ s1 :: b) s2 c]
    show (([s2] ++ c)).getLast? = _
    rw [List.getLast?_append_of_ne_nil [s2] hc, List.getLast?_eq_getLast c hc]
  have hrun : hasSepRun2 l = false := by
    apply hasSepRun2_eq_false
    rw [hl2]
    rw [List.chain'_append]
    refine ⟨?_, ?_, ?_⟩
    · rw [List.chain'_append]
      refine ⟨chainSep_of_all a (fun x hx => digit_not_sepDash x (hda x hx)), ?_, ?_⟩
      · rw [List.chain'_cons']
        constructor
        · intro y hy
          rw [List.head?_eq_head hb] at hy
          simp only [Option.mem_def, Option.some.injEq] at hy
          exact Or.inr (hy ▸ digit_not_sepDash _ (hdb _ (List.head_mem hb)))
        · exact chainSep_of_all b (fun x hx => digit_not_sepDash x (hdb x hx))
      · intro x hx y hy
        simp only [Option.mem_def] at hx
        exact Or.inl (digit_not_sepDash _ (hda _ (mem_of_getLast?_eq a x hx)))
    · rw [List.chain'_cons']
      constructor
      · intro y hy
        rw [List.head?_eq_head hc] at hy
        simp only [Option.mem_def, Option.some.injEq] at hy
        exact Or.inr (hy ▸ digit_not_sepDash _ (hdc _ (List.head_mem hc)))
      · exact chainSep_of_all c (fun x hx => digit_not_sepDash x (hdc x hx))
    · intro x hx y hy
      simp only [Option.mem_def] at hx
      rw [List.getLast?_append_cons a s1 b] at hx
      have hx2 : ([s1] ++ b).getLast? = some x := hx
      rw [List.getLast?_append_of_ne_nil [s1] hb] at hx2
      exact Or.inl (digit_not_sepDash _ (hdb _ (mem_of_getLast?_eq b x hx2)))
  have hhead_ne : ¬(l.head? = some '-') := by
    rw [hhead]
    simp only [Option.some.injEq]
    exact digit_ne _ hheadd '-' (by right; decide)
  have hedge : hasBadEdgeSep l = false := by
    unfold hasBadEdgeSep
    rw [hhead, hlast]
    simp only [digit_not_sepDot _ hheadd, digit_not_sepDash _ (hdc _ (List.getLast_mem hc)),
      Bool.or_false]
  have hsign : numericSign l = [] := by
    unfold numericSign
    rw [if_neg hhead_ne]
  have hdrop : numericDropSigns l = l := by
    unfold numericDropSigns
    rw [if_neg hhead_ne, if_neg ?_]
    · apply List.filter_eq_self.mpr
      intro x hx
      rcases hmem x hx with hx' | rfl | rfl
      · simp [digit_ne x hx' '+' (by right; decide), digit_ne x hx' '-' (by right; decide)]
      · simp [hsep1.2.2.2.2.2.1, hsep1.2.2.2.2.2.2]
      · simp [hsep2.2.2.2.2.2.1, hsep2.2.2.2.2.2.2]
    · rw [hhead]
      simp only [Option.some.injEq]
      exact digit_ne _ hheadd '+' (by right; decide)
  have hnows : ∀ x ∈ l, ¬(isJsWs x = true) := by
    intro x hx
    rcases hmem x hx with hx' | rfl | rfl
    · simp [digit_not_jsWs x hx']
    · simp [hsep1.2.2.2.2.1]
    · simp [hsep2.2.2.2.2.1]
  have hungroup : numericUngroup l = l := by
    unfold numericUngroup
    have hsplit : splitWsTokens l = [l] := by
      unfold splitWsTokens
      rw [List.splitOnP_eq_single isJsWs l hnows]
      simp [hlne]
    rw [hsplit, if_neg ?_]
    intro hcontra
    unfold hasThousandSpaces at hcontra
    simp at hcontra
  unfold normalizeNumericString
  rw [hclean, if_neg hhead_ne, hsign, hdrop, hungroup, if_neg ?_]
  simp [hlne, hrun, hedge]

theorem count_digit_zero (l : Str) (hd : ∀ x ∈ l, x.isDigit = true) (s : Char)
    (hs : 57 < s.toNat ∨ s.toNat < 48) : l.count s = 0 :=
  List.count_eq_zero.mpr (fun hm => by
    obtain ⟨h1, h2⟩ := isDigit_toNat s (hd s hm)
    omega)

theorem filter_digits_eq_self (l : Str) (hd : ∀ x ∈ l, x.isDigit = true)
    (p : Char → Bool) (hp : ∀ x, x.isDigit = true → p x = true) : l.filter p = l :=
  List.filter_eq_self.mpr (fun x hx => hp x (hd x hx))

theorem not_mem_digits (l : Str) (hd : ∀ x ∈ l, x.isDigit = true) (s : Char)
    (hs : 57 < s.toNat ∨ s.toNat < 48) : s ∉ l := by
  intro hm
  obtain ⟨h1, h2⟩ := isDigit_toNat s (hd s hm)
  omega

theorem resolve_two_dots (a b c : Str)
    (hda : ∀ x ∈ a, x.isDigit = true) (hdb : ∀ x ∈ b, x.isDigit = true)
    (hdc : ∀ x ∈ c, x.isDigit = true) :
    resolveSeparators [] (a ++ '.' :: b ++ '.' :: c) = a ++ b ++ c := by
  have hdot : (a ++ '.' :: b ++ '.' :: c).count '.' = 2 := by
    simp [List.count_append, List.count_cons,
      count_digit_zero a hda '.' (by right; decide),
      count_digit_zero b hdb '.' (by right; decide),
      count_digit_zero c hdc '.' (by right; decide)]
  have hcom : (a ++ '.' :: b ++ '.' :: c).count ',' = 0 := by
    simp [List.count_append, List.count_cons,
      count_digit_zero a hda ',' (by right; decide),
      count_digit_zero b hdb ',' (by right; decide),
      count_digit_zero c hdc ',' (by right; decide)]
  unfold resolveSeparators
  rw [hdot, hcom]
  rw [if_neg (by norm_num), if_neg (by norm_num), if_neg (by norm_num), if_pos (by norm_num)]
  have hfa : a.filter (fun x => !(x = '.')) = a :=
    filter_digits_eq_self a hda _ (fun x h => by simp [digit_ne x h '.' (by right; decide)])
  have hfb : b.filter (fun x => !(x = '.')) = b :=
    filter_digits_eq_self b hdb _ (fun x h => by simp [digit_ne x h '.' (by right; decide)])
  have hfc : c.filter (fun x => !(x = '.')) = c :=
    filter_digits_eq_self c hdc _ (fun x h => by simp [digit_ne x h '.' (by right; decide)])
  simp [List.filter_append, List.filter_cons, hfa, hfb, hfc]

theorem resolve_two_commas (a b c : Str)
    (hda : ∀ x ∈ a, x.isDigit = true) (hdb : ∀ x ∈ b, x.isDigit = true)
    (hdc : ∀ x ∈ c, x.isDigit = true) :
    resolveSeparators [] (a ++ ',' :: b ++ ',' :: c) = a ++ b ++ c := by
  have hdot : (a ++ ',' :: b ++ ',' :: c).count '.' = 0 := by
    simp [List.count_append, List.count_cons,
      count_digit_zero a hda '.' (by right; decide),
      count_digit_zero b hdb '.' (by right; decide),
      count_digit_zero c hdc '.' (by right; decide)]
  have hcom : (a ++ ',' :: b ++ ',' :: c).count ',' = 2 := by
    simp [List.count_append, List.count_cons,
      count_digit_zero a hda ',' (by right; decide),
      count_digit_zero b hdb ',' (by right; decide),
      count_digit_zero c hdc ',' (by right; decide)]
  unfold resolveSeparators
  rw [hdot, hcom]
  rw [if_neg (by norm_num), if_neg (by norm_num), if_neg (by norm_num),
    if_neg (by norm_num), if_pos (by norm_num)]
  have hfa : a.filter (fun x => !(x = ',')) = a :=
    filter_digits_eq_self a hda _ (fun x h => by simp [digit_ne x h ',' (by right; decide)])
  have hfb : b.filter (fun x => !(x = ',')) = b :=
    filter_digits_eq_self b hdb _ (fun x h => by simp [digit_ne x h ',' (by right; decide)])
  have hfc : c.filter (fun x => !(x = ',')) = c :=
    filter_digits_eq_self c hdc _ (fun x h => by simp [digit_ne x h ',' (by right; decide)])
  simp [List.filter_append, List.filter_cons, hfa, hfb, hfc]

theorem resolve_dot_comma (a b c : Str) (hc : c ≠ [])
    (hda : ∀ x ∈ a, x.isDigit = true) (hdb : ∀ x ∈ b, x.isDigit = true)
    (hdc : ∀ x ∈ c, x.isDigit = true) :
    resolveSeparators [] (a ++ '.' :: b ++ ',' :: c) = a ++ b ++ '.' :: c := by
  have hdot : (a ++ '.' :: b ++ ',' :: c).count '.' = 1 := by
    simp [List.count_append, List.count_cons,
      count_digit_zero a hda '.' (by right; decide),
      count_digit_zero b hdb '.' (by right; decide),
      count_digit_zero c hdc '.' (by right; decide)]
  have hcom : (a ++ '.' :: b ++ ',' :: c).count ',' = 1 := by
    simp [List.count_append, List.count_cons,
      count_digit_zero a hda ',' (by right; decide),
      count_digit_zero b hdb ',' (by right; decide),
      count_digit_zero c hdc ',' (by right; decide)]
  have hLc : jsLastIndexOf (a ++ '.' :: b ++ ',' :: c) ',' = ((a ++ '.' :: b).length : ℤ) :=
    jsLastIndexOf_eq (a ++ '.' :: b) c ','
      (not_mem_digits c hdc ',' (by right; decide))
  have hassoc : a ++ '.' :: b ++ ',' :: c = a ++ '.' :: (b ++ ',' :: c) := by simp
  have hLd : jsLastIndexOf (a ++ '.' :: b ++ ',' :: c) '.' = ((a.length : ℕ) : ℤ) := by
    rw [hassoc]
    apply jsLastIndexOf_eq a (b ++ ',' :: c) '.'
    simp only [List.mem_append, List.mem_cons]
    rintro (hm | hm | hm)
    · exact not_mem_digits b hdb '.' (by right; decide) hm
    · exact absurd hm (by decide)
    · exact not_mem_digits c hdc '.' (by right; decide) hm
  have hmax : max (jsLastIndexOf (a ++ '.' :: b ++ ',' :: c) ',')
      (jsLastIndexOf (a ++ '.' :: b ++ ',' :: c) '.') = ((a ++ '.' :: b).length : ℤ) := by
    rw [hLc, hLd]
    apply max_eq_left
    have h : a.length ≤ (a ++ '.' :: b).length := by simp [List.length_append]
    exact_mod_cast h
  have hslice1 : jsSliceTo (a ++ '.' :: b ++ ',' :: c) (((a ++ '.' :: b).length : ℕ) : ℤ)
      = a ++ '.' :: b := by
    unfold jsSliceTo
    rw [if_neg (by exact not_lt.mpr (Int.natCast_nonneg _)), Int.toNat_natCast]
    exact List.take_left' rfl
  have hslice2 : jsSliceFrom (a ++ '.' :: b ++ ',' :: c) ((((a ++ '.' :: b).length : ℕ) : ℤ) + 1)
      = c := by
    unfold jsSliceFrom
    rw [if_neg (by omega)]
    have ht : ((((a ++ '.' :: b).length : ℕ) : ℤ) + 1).toNat = (a ++ '.' :: b).length + 1 := by
      omega
    rw [ht]
    have hshape : a ++ '.' :: b ++ ',' :: c = ((a ++ '.' :: b) ++ [',']) ++ c := by simp
    rw [hshape]
    exact List.drop_left' (by simp only [List.length_append, List.length_cons, List.length_nil])
  have hfilter : (a ++ '.' :: b).filter (fun x => !isSepDot x) = a ++ b := by
    rw [List.filter_append, List.filter_cons]
    rw [filter_digits_eq_self a hda _ (fun x h => by simp [digit_not_sepDot x h]),
      filter_digits_eq_self b hdb _ (fun x h => by simp [digit_not_sepDot x h])]
    norm_num [isSepDot]
  have hbuild : buildDecimal (a ++ b) c = (a ++ b) ++ '.' :: c := by
    simp only [buildDecimal]
    rw [filter_digits_eq_self c hdc _ (fun x h => by simp [digit_not_sepDash x h])]
    have hab : (a ++ b).filter (fun x => !isSepDash x) = a ++ b := by
      rw [List.filter_append,
        filter_digits_eq_self a hda _ (fun x h => by simp [digit_not_sepDash x h]),
        filter_digits_eq_self b hdb _ (fun x h => by simp [digit_not_sepDash x h])]
    rw [hab, if_neg (fun h => hc h.2), if_neg hc]
  unfold resolveSeparators
  rw [hdot, hcom]
  rw [if_neg (by norm_num), if_neg (by norm_num), if_neg (by norm_num),
    if_neg (by norm_num), if_neg (by norm_num)]
  rw [hmax, hslice1, hslice2, hfilter, hbuild]
  simp

theorem resolve_comma_dot (a b c : Str) (hc : c ≠ [])
    (hda : ∀ x ∈ a, x.isDigit = true) (hdb : ∀ x ∈ b, x.isDigit = true)
    (hdc : ∀ x ∈ c, x.isDigit = true) :
    resolveSeparators [] (a ++ ',' :: b ++ '.' :: c) = a ++ b ++ '.' :: c := by
  have hdot : (a ++ ',' :: b ++ '.' :: c).count '.' = 1 := by
    simp [List.count_append, List.count_cons,
      count_digit_zero a hda '.' (by right; decide),
      count_digit_zero b hdb '.' (by right; decide),
      count_digit_zero c hdc '.' (by right; decide)]
  have hcom : (a ++ ',' :: b ++ '.' :: c).count ',' = 1 := by
    simp [List.count_append, List.count_cons,
      count_digit_zero a hda ',' (by right; decide),
      count_digit_zero b hdb ',' (by right; decide),
      count_digit_zero c hdc ',' (by right; decide)]
  have hLd : jsLastIndexOf (a ++ ',' :: b ++ '.' :: c) '.' = ((a ++ ',' :: b).length : ℤ) :=
    jsLastIndexOf_eq (a ++ ',' :: b) c '.'
      (not_mem_digits c hdc '.' (by right; decide))
  have hassoc : a ++ ',' :: b ++ '.' :: c = a ++ ',' :: (b ++ '.' :: c) := by simp
  have hLc : jsLastIndexOf (a ++ ',' :: b ++ '.' :: c) ',' = ((a.length : ℕ) : ℤ) := by
    rw [hassoc]
    apply jsLastIndexOf_eq a (b ++ '.' :: c) ','
    simp only [List.mem_append, List.mem_cons]
    rintro (hm | hm | hm)
    · exact not_mem_digits b hdb ',' (by right; decide) hm
    · exact absurd hm (by decide)
    · exact not_mem_digits c hdc ',' (by right; decide) hm
  have hmax : max (jsLastIndexOf (a ++ ',' :: b ++ '.' :: c) ',')
      (jsLastIndexOf (a ++ ',' :: b ++ '.' :: c) '.') = ((a ++ ',' :: b).length : ℤ) := by
    rw [hLc, hLd]
    apply max_eq_right
    have h : a.length ≤ (a ++ ',' :: b).length := by simp [List.length_append]
    exact_mod_cast h
  have hslice1 : jsSliceTo (a ++ ',' :: b ++ '.' :: c) (((a ++ ',' :: b).length : ℕ) : ℤ)
      = a ++ ',' :: b := by
    unfold jsSliceTo
    rw [if_neg (by exact not_lt.mpr (Int.natCast_nonneg _)), Int.toNat_natCast]
    exact List.take_left' rfl
  have hslice2 : jsSliceFrom (a ++ ',' :: b ++ '.' :: c) ((((a ++ ',' :: b).length : ℕ) : ℤ) + 1)
      = c := by
    unfold jsSliceFrom
    rw [if_neg (by omega)]
    have ht : ((((a ++ ',' :: b).length : ℕ) : ℤ) + 1).toNat = (a ++ ',' :: b).length + 1 := by
      omega
    rw [ht]
    have hshape : a ++ ',' :: b ++ '.' :: c = ((a ++ ',' :: b) ++ ['.']) ++ c := by simp
    rw [hshape]
    exact List.drop_left' (by simp only [List.length_append, List.length_cons, List.length_nil])
  have hfilter : (a ++ ',' :: b).filter (fun x => !isSepDot x) = a ++ b := by
    rw [List.filter_append, List.filter_cons]
    rw [filter_digits_eq_self a hda _ (fun x h => by simp [digit_not_sepDot x h]),
      filter_digits_eq_self b hdb _ (fun x h => by simp [digit_not_sepDot x h])]
    norm_num [isSepDot]
  have hbuild : buildDecimal (a ++ b) c = (a ++ b) ++ '.' :: c := by
    simp only [buildDecimal]
    rw [filter_digits_eq_self c hdc _ (fun x h => by simp [digit_not_sepDash x h])]
    have hab : (a ++ b).filter (fun x => !isSepDash x) = a ++ b := by
      rw [List.filter_append,
        filter_digits_eq_self a hda _ (fun x h => by simp [digit_not_sepDash x h]),
        filter_digits_eq_self b hdb _ (fun x h => by simp [digit_not_sepDash x h])]
    rw [hab, if_neg (fun h => hc h.2), if_neg hc]
  unfold resolveSeparators
  rw [hdot, hcom]
  rw [if_neg (by norm_num), if_neg (by norm_num), if_neg (by norm_num),
    if_neg (by norm_num), if_neg (by norm_num)]
  rw [hmax, hslice1, hslice2, hfilter, hbuild]
  simp

/-- C4 counterexample: the claimed 3-digit grouping exception does not exist.
`normalizeNumericString "1.234,567"` treats the last separator `,` as the
decimal point and yields `"1234.567"`, not the integer `"1234567"` the claim
predicts for exactly 3 digits after an unambiguous earlier separator. -/
theorem C4_counterexample_no_grouping_exception :
    normalizeNumericString "1.234,567".toList = "1234.567".toList ∧
    normalizeNumericString "1.234,567".toList ≠ "1234567".toList := by
  decide

/-- C4 (amended): for digit groups `a`, `b`, `c` joined by two separators,
`normalizeNumericString` resolves the separators purely by glyph counts, with
no 3-digit grouping exception: one `.` and one `,` (either order) make the
later separator the decimal point and strip the earlier one as grouping; two
equal separators are both stripped as grouping with no decimal part produced;
and any input whose cleaned form carries more than two `.`/`,` separators is
rejected to the empty string. -/
theorem C4_two_separator_resolution (a b c : Str)
    (ha : a ≠ []) (hb : b ≠ []) (hc : c ≠ [])
    (hda : ∀ x ∈ a, x.isDigit = true) (hdb : ∀ x ∈ b, x.isDigit = true)
    (hdc : ∀ x ∈ c, x.isDigit = true) :
    normalizeNumericString (a ++ '.' :: b ++ ',' :: c) = a ++ b ++ '.' :: c ∧
    normalizeNumericString (a ++ ',' :: b ++ '.' :: c) = a ++ b ++ '.' :: c ∧
    normalizeNumericString (a ++ '.' :: b ++ '.' :: c) = a ++ b ++ c ∧
    normalizeNumericString (a ++ ',' :: b ++ ',' :: c) = a ++ b ++ c ∧
    (∀ raw : Str, 2 < (numericUngroup (numericDropSigns (cleanNumericRaw raw))).count '.' +
        (numericUngroup (numericDropSigns (cleanNumericRaw raw))).count ',' →
      normalizeNumericString raw = []) := by
  refine ⟨?_, ?_, ?_, ?_, ?_⟩
  · rw [normalize_two_sep a b c '.' ',' (Or.inl rfl) (Or.inr rfl) ha hb hc hda hdb hdc]
    exact resolve_dot_comma a b c hc hda hdb hdc
  · rw [normalize_two_sep a b c ',' '.' (Or.inr rfl) (Or.inl rfl) ha hb hc hda hdb hdc]
    exact resolve_comma_dot a b c hc hda hdb hdc
  · rw [normalize_two_sep a b c '.' '.' (Or.inl rfl) (Or.inl rfl) ha hb hc hda hdb hdc]
    exact resolve_two_dots a b c hda hdb hdc
  · rw [normalize_two_sep a b c ',' ',' (Or.inr rfl) (Or.inr rfl) ha hb hc hda hdb hdc]
    exact resolve_two_commas a b c hda hdb hdc
  · intro raw hraw
    unfold normalizeNumericString
    split <;> split <;> first
      | rfl
      | (unfold resolveSeparators; rw [if_neg (by omega), if_pos hraw])

/-- C4 witness: the amended theorem applied to the digit groups of
`"1.234,567"` and `"1.234.567"`, and the rejection clause applied to
`"1.2.3,4"`. -/
theorem C4_witness :
    normalizeNumericString (['1'] ++ '.' :: ['2', '3', '4'] ++ ',' :: ['5', '6', '7']) =
      ['1'] ++ ['2', '3', '4'] ++ '.' :: ['5', '6', '7'] ∧
    normalizeNumericString (['1'] ++ '.' :: ['2', '3', '4'] ++ '.' :: ['5', '6', '7']) =
      ['1'] ++ ['2', '3', '4'] ++ ['5', '6', '7'] ∧
    normalizeNumericString "1.2.3,4".toList = [] :=
  have h := C4_two_separator_resolution ['1'] ['2', '3', '4'] ['5', '6', '7']
    (by decide) (by decide) (by decide) (by decide) (by decide) (by decide)
  ⟨h.1, h.2.2.1, h.2.2.2.2 _ (by decide)⟩

/-! ## Claim C1: the search sequencer -/

theorem searchResume_stale (cn sq : ℕ) (p : PendingSearch)
    (tres : Except String EsriPoint) (h : ¬(sq = cn)) :
    (searchResume cn sq p tres).1 = [] ∧
    (∀ pt, tres = .ok pt →
      (searchResume cn sq p tres).2 = .raised "coordinateSearchOutdated") ∧
    (∀ e, tres = .error e → (searchResume cn sq p tres).2 = .raised e) := by
  cases tres with
  | error e =>
    refine ⟨?_, ?_, ?_⟩
    · simp only [searchResume]
      by_cases he : e = "coordinateSearchOutdated"
      · rw [if_pos he]
      · rw [if_neg he, if_neg h]
    · intro pt hpt
      cases hpt
    · intro e' he'
      cases he'
      simp only [searchResume]
      by_cases he : e = "coordinateSearchOutdated"
      · rw [if_pos he]
      · rw [if_neg he, if_neg h]
  | ok pt =>
    refine ⟨?_, ?_, ?_⟩
    · simp only [searchResume]
      rw [if_pos h]
    · intro pt' hpt
      simp only [searchResume]
      rw [if_pos h]
    · intro e' he'
      cases he'

theorem searchResume_event_seq (cn sq : ℕ) (p : PendingSearch)
    (tres : Except String EsriPoint) :
    ∀ ev ∈ (searchResume cn sq p tres).1, eventSeq ev = sq := by
  intro ev hm
  cases tres with
  | error e =>
    simp only [searchResume] at hm
    by_cases he : e = "coordinateSearchOutdated"
    · rw [if_pos he] at hm
      simp at hm
    · rw [if_neg he] at hm
      by_cases hsq : sq = cn
      · rw [if_pos hsq] at hm
        simp at hm
        rw [hm]
        rfl
      · rw [if_neg hsq] at hm
        simp at hm
  | ok pt =>
    simp only [searchResume] at hm
    by_cases hsq : sq = cn
    · rw [if_neg (not_not_intro hsq)] at hm
      simp at hm
      rw [hm]
      rfl
    · rw [if_pos hsq] at hm
      simp at hm

/-- C1 counterexample: a stale invocation whose transform rejects does not
raise `coordinateSearchOutdated` — it re-raises the transform's own error
message.  Invocation `A` (sequence 1) is overtaken by `B` (sequence 2); `A`'s
transform rejects with `coordinateErrorTransform`, and `A`'s outcome is that
very error, not the internal outdated signal the claim names (the no-callback
half of the claim does hold: `A` still fires no event). -/
theorem C1_counterexample_stale_error_reraised :
    (runTwoSearches none .auto "125452 6178897".toList "125452 6178897".toList
      (.error "coordinateErrorTransform") (.ok ⟨1, 2, none⟩) true 0) =
      ⟨[.success 2 []], .raised "coordinateErrorTransform", .fulfilled []⟩ ∧
    (runTwoSearches none .auto "125452 6178897".toList "125452 6178897".toList
      (.error "coordinateErrorTransform") (.ok ⟨1, 2, none⟩) true 0).outA ≠
      .raised "coordinateSearchOutdated" := by
  decide

/-- C1 (amended): when invocation `A` suspends at its transform and `B` starts
before `A` resumes, `A` never fires `onSuccess` or `onError` — every delivered
callback belongs to `B` (sequence `c0 + 2`) — regardless of resume order; the
stale `A` raises `coordinateSearchOutdated` when its transform resolves, but
when its transform rejects it re-raises that rejection's own message instead
(for `coordinateSearchOutdated` itself the two coincide). -/
theorem C1_stale_invocation_silent (mapLon : Option ℚ)
    (pref : CoordinateProjectionPreference) (inputA inputB : Str)
    (tA tB : Except String EsriPoint) (ord : Bool) (c0 : ℕ) (pA : PendingSearch)
    (hA : searchPhase1 mapLon pref inputA = .pending pA) :
    (∀ ev ∈ (runTwoSearches mapLon pref inputA inputB tA tB ord c0).events,
      eventSeq ev = c0 + 2) ∧
    (∀ pt, tA = .ok pt →
      (runTwoSearches mapLon pref inputA inputB tA tB ord c0).outA =
        .raised "coordinateSearchOutdated") ∧
    (∀ e, tA = .error e →
      (runTwoSearches mapLon pref inputA inputB tA tB ord c0).outA = .raised e) := by
  have hstale := searchResume_stale (c0 + 2) (c0 + 1) pA tA (by omega)
  cases hB : searchPhase1 mapLon pref inputB with
  | failed keyB =>
    have hTev : (runTwoSearches mapLon pref inputA inputB tA tB ord c0).events =
        [.error (c0 + 2) keyB] := by
      simp [runTwoSearches, hA, hB, hstale.1]
    have hToutA : (runTwoSearches mapLon pref inputA inputB tA tB ord c0).outA =
        (searchResume (c0 + 2) (c0 + 1) pA tA).2 := by
      simp [runTwoSearches, hA, hB]
    refine ⟨?_, ?_, ?_⟩
    · intro ev hm
      rw [hTev] at hm
      simp at hm
      rw [hm]
      rfl
    · intro pt htA
      rw [hToutA]
      exact hstale.2.1 pt htA
    · intro e htA
      rw [hToutA]
      exact hstale.2.2 e htA
  | pending pB =>
    have hseqB := searchResume_event_seq (c0 + 2) (c0 + 2) pB tB
    have hTev : (runTwoSearches mapLon pref inputA inputB tA tB ord c0).events =
        (searchResume (c0 + 2) (c0 + 2) pB tB).1 := by
      cases ord with
      | true => simp [runTwoSearches, hA, hB, hstale.1]
      | false => simp [runTwoSearches, hA, hB, hstale.1]
    have hToutA : (runTwoSearches mapLon pref inputA inputB tA tB ord c0).outA =
        (searchResume (c0 + 2) (c0 + 1) pA tA).2 := by
      cases ord with
      | true => simp [runTwoSearches, hA, hB]
      | false => simp [runTwoSearches, hA, hB]
    refine ⟨?_, ?_, ?_⟩
    · intro ev hm
      rw [hTev] at hm
      exact hseqB ev hm
    · intro pt htA
      rw [hToutA]
      exact hstale.2.1 pt htA
    · intro e htA
      rw [hToutA]
      exact hstale.2.2 e htA

/-- C1 witness: the amended theorem at two fulfilled searches of
`"125452 6178897"` — the stale first invocation fires no callback, the only
event is `B`'s (sequence 2), and `A` raises `coordinateSearchOutdated`. -/
theorem C1_witness :
    (∀ ev ∈ (runTwoSearches none .auto "125452 6178897".toList
        "125452 6178897".toList (.ok ⟨1, 2, none⟩) (.ok ⟨1, 2, none⟩) true 0).events,
      eventSeq ev = 2) ∧
    (runTwoSearches none .auto "125452 6178897".toList "125452 6178897".toList
      (.ok ⟨1, 2, none⟩) (.ok ⟨1, 2, none⟩) true 0).outA =
      .raised "coordinateSearchOutdated" := by
  have hshape : (match searchPhase1 none .auto "125452 6178897".toList with
    | Phase1Result.pending _ => true
    | Phase1Result.failed _ => false) = true := by decide
  cases hmatch : searchPhase1 none .auto "125452 6178897".toList with
  | failed k =>
    rw [hmatch] at hshape
    simp at hshape
  | pending pA =>
    obtain ⟨h1, h2, h3⟩ := C1_stale_invocation_silent none .auto
      "125452 6178897".toList "125452 6178897".toList
      (.ok ⟨1, 2, none⟩) (.ok ⟨1, 2, none⟩) true 0 pA hmatch
    exact ⟨h1, h2 ⟨1, 2, none⟩ rfl⟩
